import Mathlib

/-!
Verification development for the Ryvie registration service
(src/registration-service/server.js, final revision of the module,
source lines 160-352).

The configuration document (the Caddyfile) is modelled as a list of
characters.  Every JavaScript regular expression occurring in the source
is embedded as an executable matcher over that representation; where a
pattern is built inside a template literal, the JavaScript string-escape
rules are applied first (so a sequence such as a backslash before s, a
backslash before a dot or a backslash before an opening brace inside a
template literal collapses to the bare character, which changes the
pattern's meaning).  The environment-derived configuration is fixed to
the defaults of the source: BASE_DOMAIN is the default base domain and
DEFAULT_TARGETS / SERVICE_PORTS are the tables of source lines 185-195
and 274-284.  File input and output is modelled by an FS record carrying
the document (none models a missing file) together with one
failure-injection flag per read/write call site; a set flag makes that
call site throw, matching an I/O exception at that point.  All inputs
are ASCII, so ASCII case folding models both toLowerCase and the
case-insensitive regex flag.
-/

abbrev Str := List Char

/-- ASCII lower-casing of one character (models String.prototype.toLowerCase
and the case-insensitive regex flag on ASCII input). -/
def lowChar (c : Char) : Char :=
  if 'A' ≤ c ∧ c ≤ 'Z' then Char.ofNat (c.toNat + 32) else c

/-- ASCII lower-casing of a string. -/
def lowerStr (s : Str) : Str := s.map lowChar

/-- Word character in the sense of the JS regex word boundary. -/
def isWordChar (c : Char) : Bool :=
  ('a' ≤ c ∧ c ≤ 'z') ∨ ('A' ≤ c ∧ c ≤ 'Z') ∨ ('0' ≤ c ∧ c ≤ '9') ∨ c = '_'

/-- Whitespace character as matched by the JS regex whitespace class
(restricted to the ASCII range of our inputs). -/
def isWsChar (c : Char) : Bool :=
  c = ' ' ∨ c = '\t' ∨ c = '\n' ∨ c = '\r' ∨ c = '\x0b' ∨ c = '\x0c'

/-- Line terminator: the characters a JS regex dot does not match. -/
def isLineTermC (c : Char) : Bool := c = '\n' ∨ c = '\r'

/-- The letters matched by the class holding s and S case-insensitively. -/
def sChar (c : Char) : Bool := c = 's' ∨ c = 'S'

/-- ASCII letter or digit, as the class a-z0-9 matches under the
case-insensitive flag. -/
def alnumCI (c : Char) : Bool :=
  ('a' ≤ c ∧ c ≤ 'z') ∨ ('A' ≤ c ∧ c ≤ 'Z') ∨ ('0' ≤ c ∧ c ≤ '9')

/-- Lowercase letter or digit (the alphabet the spec ascribes to tenant
identities). -/
def lowerAlnum (c : Char) : Bool :=
  ('a' ≤ c ∧ c ≤ 'z') ∨ ('0' ≤ c ∧ c ≤ '9')

/-- The lower-cased default nanoid alphabet: nanoid draws from A-Za-z0-9
together with hyphen and underscore, and the source lower-cases the
result, so an allocated candidate consists of these characters. -/
def nanoLowerChar (c : Char) : Bool :=
  ('a' ≤ c ∧ c ≤ 'z') ∨ ('0' ≤ c ∧ c ≤ '9') ∨ c = '-' ∨ c = '_'

/-- Does some suffix of the string satisfy the predicate?  This is the
basic scan underlying every unanchored regex test. -/
def existsSuffix (p : Str → Bool) : Str → Bool
  | [] => p []
  | c :: cs => p (c :: cs) || existsSuffix p cs

/-- Case-sensitive substring containment. -/
def strContains (pat : Str) (text : Str) : Bool :=
  existsSuffix (fun r => pat.isPrefixOf r) text

/-- Case-insensitive (ASCII) prefix test. -/
def ciPref : Str → Str → Bool
  | [], _ => true
  | _ :: _, [] => false
  | a :: as, b :: bs => (lowChar a == lowChar b) && ciPref as bs

/-- Length of the maximal run of whitespace characters at the front. -/
def wsRun : Str → Nat
  | [] => 0
  | c :: r => if isWsChar c then wsRun r + 1 else 0

/-- Length of the maximal run of digit characters at the front. -/
def digRun : Str → Nat
  | [] => 0
  | c :: r => if c.isDigit then digRun r + 1 else 0

/-- Length of the maximal run of characters other than s/S at the front. -/
def nonSRun : Str → Nat
  | [] => 0
  | c :: r => if sChar c then 0 else nonSRun r + 1

/-- Length of the maximal run of s/S characters at the front. -/
def sRun : Str → Nat
  | [] => 0
  | c :: r => if sChar c then sRun r + 1 else 0

/-- Decimal digit character for a value below ten. -/
def digitChar (n : Nat) : Char := Char.ofNat (48 + n)

def natDigitsGo : Nat → Nat → Str
  | 0, _ => []
  | fuel + 1, n =>
    if n < 10 then [digitChar n]
    else natDigitsGo fuel (n / 10) ++ [digitChar (n % 10)]

/-- Decimal representation of a natural number, as JS renders a number
into a template literal. -/
def natDigits (n : Nat) : Str := natDigitsGo (n + 1) n

/-- Numeric value of a string of decimal digits. -/
def digitsVal (s : Str) : Nat := s.foldl (fun a c => a * 10 + (c.toNat - 48)) 0

/-- BASE_DOMAIN with its default value (source line 182). -/
def baseDomain : Str := ("ryvie.fr").data

/-! ### The isIdUsed check (source lines 205-215)

The pattern is built with properly doubled backslashes, so it is the
literal text dot-id-dot-base-domain followed by a word boundary; the
base domain ends in a word character, so the boundary holds exactly when
the next character is absent or is not a word character. -/

def idPat (id : Str) : Str := '.' :: (id ++ '.' :: baseDomain)

def boundaryOk : Str → Bool
  | [] => true
  | c :: _ => !(isWordChar c)

def idPatAt (id : Str) (r : Str) : Bool :=
  (idPat id).isPrefixOf r && boundaryOk (r.drop (idPat id).length)

/-- The regex test of isIdUsed on the file text. -/
def isIdUsedText (id : Str) (text : Str) : Bool :=
  existsSuffix (idPatAt id) text

/-- isIdUsed including its I/O behaviour: a missing file reads as unused,
and a thrown read error is swallowed by the internal catch, which also
reports unused (source line 212-214). -/
def isIdUsedM (doc : Option Str) (fail : Bool) (id : Str) : Bool :=
  match doc with
  | none => false
  | some d => if fail then false else isIdUsedText id d

/-! ### The existing-identity lookup (source lines 243-251)

The pattern is assembled inside a template literal, so its escape
sequences are processed as string escapes before the RegExp constructor
sees them: the backslash-n becomes a real newline, backslash-s becomes
the letter s, backslash-dot becomes a bare dot (the any-character
metacharacter), and backslash-brace becomes a bare brace.  The pattern
the constructor receives is therefore: newline, one or more characters
other than s, any character, a capture of eight alphanumerics, any
character, the escaped base domain, space, open brace, a lazy run of
s/S characters, the literal reverse_proxy, one or more s/S characters,
the escaped backend host, colon - all case-insensitive. -/

/-- Tail of the lookup: the literal reverse_proxy, then the run of s/S
characters left over from the destroyed whitespace escape, then the
backend host and a colon. -/
def rpyTail (bh : Str) (r : Str) : Bool :=
  if ciPref (("reverse_proxy").data) r then
    let r2 := r.drop 13
    let m := sRun r2
    (List.range m).any (fun j => ciPref (bh ++ [':']) (r2.drop (j + 1)))
  else false

/-- The part after the open brace: a lazy run over the class holding only
s and S, then the reverse-proxy tail. -/
def afterBrace (bh : Str) : Str → Bool
  | [] => rpyTail bh []
  | c :: cs => rpyTail bh (c :: cs) || (sChar c && afterBrace bh cs)

/-- The part after the non-s run: any character, eight alphanumerics
(captured), any character, the base domain, space, open brace, then the
brace tail.  Returns the captured candidate identity on success. -/
def lookupTail (bh : Str) : Str → Option Str
  | [] => none
  | c1 :: t1 =>
    if isLineTermC c1 then none
    else
      let cid := t1.take 8
      if cid.length == 8 && cid.all alnumCI then
        match t1.drop 8 with
        | [] => none
        | c2 :: t2 =>
          if isLineTermC c2 then none
          else if ciPref (("ryvie.fr \x7b").data) t2 then
            if afterBrace bh (t2.drop 10) then some cid else none
          else none
      else none

/-- Match attempt just after a newline: choose the length of the leading
run over the class excluding s (greedy, longest first), then the fixed
tail. -/
def lookupAt (bh : Str) (rest : Str) : Option Str :=
  let m := nonSRun rest
  (List.range m).findSome? (fun j => lookupTail bh (rest.drop (m - j)))

/-- The full existing-identity lookup: leftmost newline first.  Returns
the captured identity of the first match, none when the pattern matches
nowhere. -/
def findExistingId (bh : Str) : Str → Option Str
  | [] => none
  | c :: cs =>
    match (if c = '\n' then lookupAt bh cs else none) with
    | some i => some i
    | none => findExistingId bh cs

/-! ### The per-service duplicate check (source lines 288-295)

These two patterns are written with doubled backslashes and an
escapeRegExp on the interpolated host and target, so they mean what they
say: the host line opener, a lazy any-character gap, and either a
newline-brace close or a reverse-proxy directive at the expected target
followed by whitespace or end of input; both carry the case-insensitive
flag. -/

/-- The block opener text: newline, host, space, open brace. -/
def openerOf (host : Str) : Str := '\n' :: (host ++ (" \x7b").data)

/-- Test of the host-presence pattern. -/
def hostBlockHit (host : Str) (text : Str) : Bool :=
  existsSuffix
    (fun r =>
      ciPref (openerOf host) r &&
      strContains (("\n\x7d").data) (r.drop (openerOf host).length))
    text

/-- End of input or a whitespace character next. -/
def endOrWs : Str → Bool
  | [] => true
  | c :: _ => isWsChar c

/-- A reverse-proxy directive at the expected target starting here:
the literal reverse_proxy, one or more whitespace characters (with
backtracking), the expected target, then whitespace or end. -/
def targetTailHit (exp : Str) (r : Str) : Bool :=
  if ciPref (("reverse_proxy").data) r then
    let r2 := r.drop 13
    let m := wsRun r2
    (List.range m).any (fun j =>
      let u := r2.drop (j + 1)
      ciPref exp u && endOrWs (u.drop exp.length))
  else false

/-- Test of the target-presence pattern. -/
def targetHit (host : Str) (exp : Str) (text : Str) : Bool :=
  existsSuffix
    (fun r =>
      ciPref (openerOf host) r &&
      existsSuffix (targetTailHit exp) (r.drop (openerOf host).length))
    text

/-- hasServiceBlock of the source: false when the host pattern misses,
true when it hits and no expected target was supplied, otherwise the
target pattern decides. -/
def hasServiceBlockB (host : Str) (expected : Option Str) (text : Str) : Bool :=
  hostBlockHit host text &&
    (match expected with
     | none => true
     | some e => targetHit host e text)

/-! ### The traceability-header counter (source lines 325-328)

The marker pattern is a regex literal with global, multiline and
case-insensitive flags: at a line start, the literal hash-space-BLOCK,
one or more whitespace characters, one or more digits.  The count is the
number of non-overlapping matches. -/

/-- Length of a marker match starting here, none when no match starts
here.  The whitespace run is greedy and only its maximal extent can be
followed by a digit, so no backtracking case split is needed. -/
def markerLen (r : Str) : Option Nat :=
  if ciPref (("# block").data) r then
    let t := r.drop 7
    let w := wsRun t
    if w == 0 then none
    else
      let d := digRun (t.drop w)
      if d == 0 then none else some (7 + w + d)
  else none

def countMarkersGo : Nat → Bool → Str → Nat
  | 0, _, _ => 0
  | _ + 1, _, [] => 0
  | fuel + 1, atStart, c :: cs =>
    if atStart then
      match markerLen (c :: cs) with
      | some len => countMarkersGo fuel false ((c :: cs).drop len) + 1
      | none => countMarkersGo fuel (c == '\n') cs
    else countMarkersGo fuel (c == '\n') cs

/-- Number of matches of the header-marker pattern in the text. -/
def countMarkers (text : Str) : Nat := countMarkersGo text.length true text

/-- Value of the marker's digit run starting here, when a marker starts
here (same shape as markerLen, but returning the parsed number and the
match length). -/
def markerVal (r : Str) : Option (Nat × Nat) :=
  if ciPref (("# block").data) r then
    let t := r.drop 7
    let w := wsRun t
    if w == 0 then none
    else
      let d := digRun (t.drop w)
      if d == 0 then none
      else some (digitsVal ((t.drop w).take d), 7 + w + d)
  else none

def markerNumsGo : Nat → Bool → Str → List Nat
  | 0, _, _ => []
  | _ + 1, _, [] => []
  | fuel + 1, atStart, c :: cs =>
    if atStart then
      match markerVal (c :: cs) with
      | some (v, len) => v :: markerNumsGo fuel false ((c :: cs).drop len)
      | none => markerNumsGo fuel (c == '\n') cs
    else markerNumsGo fuel (c == '\n') cs

/-- The sequence numbers of the header markers present in the text, in
file order. -/
def markerNums (text : Str) : List Nat := markerNumsGo text.length true text

/-- Modelled from the spec: NextHeaderSequence scans existing BlockHeader
comments and returns one greater than the maximum found sequence number,
or 1 if there are none.  This is the specification's contract, written
here to be compared against what the source computes. -/
def specNextHeaderSequence (text : Str) : Nat :=
  (markerNums text).foldr Nat.max 0 + 1

/-! ### Block synthesis (source lines 217-229) -/

/-- makeSiteBlock: the plain template with a single reverse-proxy
directive. -/
def makeSiteBlock (host target : Str) : Str :=
  '\n' :: (host ++ (" \x7b\n    reverse_proxy ").data ++ target ++ ("\n\x7d\n").data)

/-- The WebSocket-upgrading template used for the backend.rdrive prefix:
a path-scoped reverse-proxy directive, the named connection-upgrade
matcher, and a second reverse-proxy directive scoped to that matcher at
the same target. -/
def wsBlockText (host target : Str) : Str :=
  '\n' :: (host ++ (" \x7b\n    reverse_proxy /* ").data ++ target ++
    ("\n\n    # Support des WebSockets\n    @websockets \x7b\n        header Connection *Upgrade*\n        header Upgrade websocket\n    \x7d\n    reverse_proxy @websockets ").data ++
    target ++ ("\n\x7d\n").data)

/-- The path-scoped template used for the connector.rdrive and
document.rdrive prefixes. -/
def pathBlockText (host target : Str) : Str :=
  '\n' :: (host ++ (" \x7b\n    reverse_proxy /* ").data ++ target ++ ("\n\x7d\n").data)

/-- makeSpecialBlock: the special templates keyed on the service prefix,
none for every other prefix. -/
def makeSpecialBlock (pfx host target : Str) : Option Str :=
  if pfx = ("backend.rdrive").data then some (wsBlockText host target)
  else if pfx = ("connector.rdrive").data ∨ pfx = ("document.rdrive").data then
    some (pathBlockText host target)
  else none

/-- The block the register loop pushes: the special template when one
exists, otherwise the plain one (source line 318-319). -/
def blockFor (pfx host target : Str) : Str :=
  (makeSpecialBlock pfx host target).getD (makeSiteBlock host target)

/-! ### The service catalogues (source lines 185-195 and 274-284),
with the environment overrides absent, i.e. at their defaults. -/

def portsLookup (p : Str) : Option Nat :=
  if p = ("rdrive").data then some 3010
  else if p = ("rtransfer").data then some 3011
  else if p = ("rdrop").data then some 8080
  else if p = ("rpictures").data then some 2283
  else if p = ("app").data then some 3000
  else if p = ("status").data then some 3002
  else if p = ("backend.rdrive").data then some 4000
  else if p = ("connector.rdrive").data then some 5000
  else if p = ("document.rdrive").data then some 8090
  else none

def defaultsLookup (p : Str) : Option Str :=
  if p = ("rdrive").data then some (("100.90.20.50:3010").data)
  else if p = ("rtransfer").data then some (("100.90.20.50:3011").data)
  else if p = ("rdrop").data then some (("100.90.20.50:8080").data)
  else if p = ("rpictures").data then some (("100.90.20.50:2283").data)
  else if p = ("app").data then some (("100.90.20.50:3000").data)
  else if p = ("status").data then some (("100.90.20.50:3002").data)
  else if p = ("backend.rdrive").data then some (("100.90.20.50:4000").data)
  else if p = ("connector.rdrive").data then some (("100.90.20.50:5000").data)
  else if p = ("document.rdrive").data then some (("100.90.20.50:8090").data)
  else none

/-! ### Request and response model (source lines 231-346) -/

/-- One element of the services array of the request body: a JSON string,
or any non-string value, whose name and target properties are read
optionally.  A JSON null or number element behaves as an object with
neither property, which this constructor also covers. -/
inductive SvcEntry where
  | str (s : Str)
  | obj (name : Option Str) (target : Option Str)
deriving DecidableEq

/-- The services field of the request body.  missing models an absent or
undefined field and falsy any other falsy value (both make the
fallback expression produce an empty array); arr models an array;
truthyNonArray models a truthy non-array value such as a lone string or
an object, on which the later .find call throws a TypeError. -/
inductive ServicesField where
  | missing
  | falsy
  | arr (xs : List SvcEntry)
  | truthyNonArray
deriving DecidableEq

/-- The request body fields the handler reads.  backendHost is the
collapsed value of the first truthy field among backendHost, backendIp
and ip (none when all are falsy). -/
structure Request where
  machineId : Option Str
  arch : Option Str
  os : Option Str
  publicIp : Option Str
  backendHost : Option Str
  services : ServicesField

/-- The three response shapes of the handler: the success payload of
source line 341 (which carries the id, the domains map and the received
echo, and nothing else), and the two HTTP-500 error payloads. -/
inductive Response where
  | ok (id : Str) (domains : List (Str × Str))
      (machineId arch os publicIp : Option Str)
  | idGenerationFailed
  | registrationFailed
deriving DecidableEq

/-- The HTTP status the handler sends with each shape. -/
def statusCode : Response → Nat
  | .ok _ _ _ _ _ _ => 200
  | .idGenerationFailed => 500
  | .registrationFailed => 500

/-- A minimal JSON value model, enough to state which fields a response
body carries. -/
inductive Json where
  | nul
  | jstr (s : Str)
  | jobj (fields : List (Str × Json))

def optJson : Option Str → Json
  | none => .nul
  | some s => .jstr s

/-- The JSON body serialized for each response (the details string of the
catch-all error is an exception rendering, abstracted as null here; no
claim depends on it). -/
def responseJson : Response → Json
  | .ok id dom m a o p =>
    .jobj [(("id").data, .jstr id),
           (("domains").data, .jobj (dom.map (fun kv => (kv.1, Json.jstr kv.2)))),
           (("received").data,
             .jobj [(("machineId").data, optJson m), (("arch").data, optJson a),
                    (("os").data, optJson o), (("publicIp").data, optJson p)])]
  | .idGenerationFailed =>
    .jobj [(("error").data, .jstr (("id_generation_failed").data)),
           (("details").data, .jstr (("Could not generate a unique id").data))]
  | .registrationFailed =>
    .jobj [(("error").data, .jstr (("registration_failed").data)),
           (("details").data, .nul)]

/-- The top-level field names of a JSON value. -/
def topKeys : Json → List Str
  | .jobj fs => fs.map (fun kv => kv.1)
  | _ => []

/-- Look up a top-level field of a JSON object. -/
def jsonField (k : Str) : Json → Option Json
  | .jobj fs =>
    match fs.find? (fun kv => kv.1 == k) with
    | some kv => some kv.2
    | none => none
  | _ => none

/-! ### The file-system model -/

/-- The shared file, plus one failure-injection flag per I/O call site of
the handler: the read of the existing-identity lookup (line 244), the
per-attempt reads of isIdUsed (line 208), the dedup snapshot read
(line 287), the header-count read (line 325), and the read and write
inside appendToCaddyfile (lines 199-201).  A set flag makes that call
site throw; reads of a missing file never throw because existsSync
short-circuits them. -/
structure FS where
  doc : Option Str
  failLookupRead : Bool
  failIdRead : Nat → Bool
  failDedupRead : Bool
  failHeaderRead : Bool
  failAppendRead : Bool
  failWrite : Bool

/-- getCaddyText: empty string for a missing file, the content otherwise,
throwing when the injected flag is set. -/
def getText (doc : Option Str) (fail : Bool) : Except Unit Str :=
  match doc with
  | none => .ok []
  | some d => if fail then .error () else .ok d

/-- appendToCaddyfile's join: keep the content as is when the current
text is empty or ends in a newline, otherwise insert one newline. -/
def appendDoc (current content : Str) : Str :=
  if current = [] ∨ current.getLast? = some '\n' then current ++ content
  else current ++ '\n' :: content

/-! ### The register handler (source lines 231-346) -/

/-- Step 1a, the existing-identity resolution: skipped without a backend
host, otherwise the broken lookup regex over the file text. -/
def resolveId (doc : Option Str) (failLookup : Bool) (bh : Option Str) :
    Except Unit (Option Str) :=
  match bh with
  | none => .ok none
  | some b =>
    match getText doc failLookup with
    | .error e => .error e
    | .ok text => .ok (findExistingId b text)

/-- Step 1b, the candidate loop: up to five draws, each kept when
isIdUsed rejects it; none when all five collide. -/
def allocFrom (doc : Option Str) (failAt : Nat → Bool) (cands : Nat → Str) :
    Nat → Nat → Option Str
  | _, 0 => none
  | i, n + 1 =>
    if isIdUsedM doc (failAt i) (cands i) then allocFrom doc failAt cands (i + 1) n
    else some (cands i)

/-- Step 2, the requested service names: the mapped and truthiness-
filtered names of an array, the single implicit service otherwise. -/
def requestedOf : List SvcEntry → List Str
  | [] => []
  | .str s :: r => if s = [] then requestedOf r else s :: requestedOf r
  | .obj none _ :: r => requestedOf r
  | .obj (some n) _ :: r => if n = [] then requestedOf r else n :: requestedOf r

def requestedFrom : ServicesField → List Str
  | .arr xs => requestedOf xs
  | _ => [("rdrive").data]

/-- The predicate of the per-service find over the original services
value: a string element matches by itself, an object element by its name
when that name is truthy. -/
def effMatches (svc : Str) : SvcEntry → Bool
  | .str s => s == svc
  | .obj (some n) _ => !n.isEmpty && n == svc
  | .obj none _ => false

/-- The explicit target override: the target of the first matching
element, when that element has a truthy target. -/
def overrideTarget (xs : List SvcEntry) (svc : Str) : Option Str :=
  match xs.find? (effMatches svc) with
  | some (.obj _ (some t)) => if t.isEmpty then none else some t
  | _ => none

/-- Target resolution over an array (or the empty-array fallback):
override first, then backend host and catalogue port, then the static
default. -/
def resolveTargetArr (xs : List SvcEntry) (bh : Option Str) (svc pfx : Str) :
    Option Str :=
  match overrideTarget xs svc with
  | some t => some t
  | none =>
    match bh with
    | some b =>
      match portsLookup pfx with
      | some p => some (b ++ ':' :: natDigits p)
      | none => defaultsLookup pfx
    | none => defaultsLookup pfx

/-- Target resolution including the .find call's behaviour on the raw
services value: on a truthy non-array it throws a TypeError. -/
def resolveTarget (services : ServicesField) (bh : Option Str) (svc pfx : Str) :
    Except Unit (Option Str) :=
  match services with
  | .arr xs => .ok (resolveTargetArr xs bh svc pfx)
  | .truthyNonArray => .error ()
  | .missing => .ok (resolveTargetArr [] bh svc pfx)
  | .falsy => .ok (resolveTargetArr [] bh svc pfx)

/-- The expected target handed to hasServiceBlock: backend host, colon,
and the catalogue port - or the text undefined when the prefix has no
catalogue port, exactly as the template literal renders it. -/
def expectedOf (bh : Option Str) (pfx : Str) : Option Str :=
  match bh with
  | none => none
  | some b =>
    some (b ++ ':' ::
      (match portsLookup pfx with
       | some p => natDigits p
       | none => ("undefined").data))

/-- The full host for a service prefix under an identity. -/
def hostOf (pfx id : Str) : Str := pfx ++ '.' :: (id ++ '.' :: baseDomain)

/-- JS object assignment on the domains accumulator: update in place when
the key exists, append otherwise. -/
def upsert : List (Str × Str) → Str → Str → List (Str × Str)
  | [], k, v => [(k, v)]
  | (k', v') :: r, k, v =>
    if k' = k then (k', v) :: r else (k', v') :: upsert r k v

/-- Association lookup on the domains list. -/
def lookupDom : List (Str × Str) → Str → Option Str
  | [], _ => none
  | (k', v') :: r, k => if k' = k then some v' else lookupDom r k

/-- The per-service loop of source lines 297-320, threading the domains
map and the block list. -/
def loopGo (services : ServicesField) (bh : Option Str) (id : Str)
    (textBefore : Str) :
    List Str → List (Str × Str) → List Str →
    Except Unit (List (Str × Str) × List Str)
  | [], dom, blks => .ok (dom, blks)
  | svc :: rest, dom, blks =>
    match resolveTarget services bh svc (lowerStr svc) with
    | .error e => .error e
    | .ok none => loopGo services bh id textBefore rest dom blks
    | .ok (some t) =>
      if hasServiceBlockB (hostOf (lowerStr svc) id)
          (expectedOf bh (lowerStr svc)) textBefore then
        loopGo services bh id textBefore rest
          (upsert dom (lowerStr svc) (hostOf (lowerStr svc) id)) blks
      else
        loopGo services bh id textBefore rest
          (upsert dom (lowerStr svc) (hostOf (lowerStr svc) id))
          (blks ++ [blockFor (lowerStr svc) (hostOf (lowerStr svc) id) t])

/-- Join of the block list with single newlines, as Array.prototype.join
produces. -/
def joinNl : List Str → Str
  | [] => []
  | [b] => b
  | b :: r => b ++ '\n' :: joinNl r

/-- The traceability header of source line 328. -/
def mkHeader (n : Nat) (bh : Option Str) (machineId : Option Str) (now : Str) :
    Str :=
  ("\n# BLOCK ").data ++ natDigits n ++ (" - backendHost=").data ++
    (match bh with | some b => b | none => ("custom targets").data) ++
    (" machineId=").data ++ machineId.getD [] ++ (" time=").data ++ now ++ ['\n']

/-- The identity the handler ends up with: the lookup result when there
is one, else the first accepted candidate - which the final emptiness
test still rejects when it is the empty string (source lines 242-264).
none means the id_generation_failed early return fires. -/
def pickId (fs : FS) (cands : Nat → Str) (idFound : Option Str) : Option Str :=
  match idFound with
  | some i => some i
  | none =>
    match allocFrom fs.doc fs.failIdRead cands 0 5 with
    | some c => if c.isEmpty then none else some c
    | none => none

/-- The write step (source lines 323-337): nothing when there are no
blocks, otherwise the header-count read, the join with the traceability
header, and the read-append-write of appendToCaddyfile; returns the new
file content when one was written. -/
def writePhase (fs : FS) (now : Str) (bh machineId : Option Str)
    (blks : List Str) : Except Unit (Option Str) :=
  if blks.isEmpty then .ok none
  else
    match getText fs.doc fs.failHeaderRead with
    | .error e => .error e
    | .ok preText =>
      match getText fs.doc fs.failAppendRead with
      | .error e => .error e
      | .ok current =>
        if fs.failWrite then .error ()
        else .ok (some (appendDoc current
            (mkHeader (countMarkers preText + 1) bh machineId now ++ joinNl blks)))

/-- The handler body after the identity is fixed: the dedup snapshot
read, the per-service loop, the write phase, and the success payload. -/
def afterId (fs : FS) (now : Str) (req : Request) (id : Str) :
    Except Unit (Response × Option Str) :=
  match getText fs.doc fs.failDedupRead with
  | .error e => .error e
  | .ok textBefore =>
    match loopGo req.services req.backendHost id textBefore
        (requestedFrom req.services) [] [] with
    | .error e => .error e
    | .ok (dom, blks) =>
      match writePhase fs now req.backendHost req.machineId blks with
      | .error e => .error e
      | .ok newDoc? =>
        .ok (.ok id dom req.machineId req.arch req.os req.publicIp, newDoc?)

/-- The handler body up to the catch: returns the response together with
the new file content when a write happened.  The now parameter is the
timestamp the handler interpolates; the external reload command has no
effect on the response or the file and is not modelled. -/
def registerE (fs : FS) (cands : Nat → Str) (now : Str) (req : Request) :
    Except Unit (Response × Option Str) :=
  match resolveId fs.doc fs.failLookupRead req.backendHost with
  | .error e => .error e
  | .ok idFound =>
    match pickId fs cands idFound with
    | none => .ok (.idGenerationFailed, none)
    | some id => afterId fs now req id

/-- The handler including its catch-all: a thrown error becomes the
registration_failed response and leaves the file as it was. -/
def register (fs : FS) (cands : Nat → Str) (now : Str) (req : Request) :
    Response × FS :=
  match registerE fs cands now req with
  | .ok (r, none) => (r, fs)
  | .ok (r, some d) => (r, { fs with doc := some d })
  | .error _ => (.registrationFailed, fs)

/-! ### Spec-side document structure

Modelled from the spec: a ConfigDocument carries a sub-sequence of
SiteBlocks, each binding one host with a host-open-brace line; the
functions below recover those host lines from the raw text, to state the
data-model invariants (host uniqueness, tenant labels) against the
text the code manipulates. -/

/-- Split into lines at newlines; total, never returns an empty list. -/
def linesOf : Str → List Str
  | [] => [[]]
  | c :: r =>
    if c = '\n' then [] :: linesOf r
    else
      match linesOf r with
      | l :: ls => (c :: l) :: ls
      | [] => [[c]]

/-- The two-character suffix space-brace that closes a site-block host
line. -/
def openSuffix : Str := (" \x7b").data

/-- The host bound by one line, when the line opens a site block: it must
not start with indentation, a comment hash or a matcher at-sign, and it
must end in space-brace; the host is the line without that suffix. -/
def lineHost? (l : Str) : Option Str :=
  match l with
  | [] => none
  | c :: _ =>
    if c = ' ' ∨ c = '\t' ∨ c = '#' ∨ c = '@' then none
    else if openSuffix.isSuffixOf l then some (l.take (l.length - 2))
    else none

/-- The hosts of the site blocks of a document, in file order. -/
def siteHosts (d : Str) : List Str := (linesOf d).filterMap lineHost?

/-- Does the identity occur as the tenant label of a site-block host:
some host consists of a nonempty service label, a dot, the identity, a
dot and the base domain. -/
def isTenantLabelIn (id : Str) (d : Str) : Prop :=
  ∃ h ∈ siteHosts d, ∃ p : Str, p ≠ [] ∧ h = p ++ '.' :: (id ++ '.' :: baseDomain)

/-- The text of an optional document. -/
def textOf (doc : Option Str) : Str := doc.getD []

/-- The header comment line (without its surrounding newlines), written
right-associated so its leading hash is exposed. -/
def headerLineOf (n : Nat) (bh mid : Option Str) (now : Str) : Str :=
  ("# BLOCK ").data ++
    (natDigits n ++
      ((" - backendHost=").data ++
        ((match bh with | some b => b | none => ("custom targets").data) ++
          ((" machineId=").data ++
            (mid.getD [] ++ ((" time=").data ++ now))))))

/-- Number of reverse-proxy directive lines in a block: lines whose text,
after leading spaces, starts with the directive keyword.  A spec-side
observation used to state template correctness. -/
def dirLines (b : Str) : Nat :=
  ((linesOf b).filter
    (fun l => (("reverse_proxy ").data).isPrefixOf
      (l.dropWhile (fun c => c == ' ')))).length

/-! ### Shared sample inputs for concrete runs -/

def cleanFS (d : Option Str) : FS :=
  ⟨d, false, fun _ => false, false, false, false, false⟩

def candsConst (s : Str) : Nat → Str := fun _ => s

def bareReq : Request := ⟨none, none, none, none, none, .missing⟩

/-! ## General lemmas about the matchers -/

theorem existsSuffix_iff (p : Str → Bool) (l : Str) :
    existsSuffix p l = true ↔ ∃ a b : Str, l = a ++ b ∧ p b = true := by
  induction l with
  | nil =>
    constructor
    · intro h
      exact ⟨[], [], rfl, h⟩
    · rintro ⟨a, b, hab, hb⟩
      have ha : a = [] := by cases a <;> simp_all
      subst ha
      have hbe : b = [] := by simpa using hab.symm
      subst hbe
      exact hb
  | cons c cs ih =>
    constructor
    · intro h
      rcases Bool.or_eq_true_iff.mp (by simpa [existsSuffix] using h) with h1 | h2
      · exact ⟨[], c :: cs, rfl, h1⟩
      · obtain ⟨a, b, hab, hb⟩ := ih.mp h2
        exact ⟨c :: a, b, by simp [hab], hb⟩
    · rintro ⟨a, b, hab, hb⟩
      cases a with
      | nil =>
        have : b = c :: cs := by simpa using hab.symm
        subst this
        simp [existsSuffix, hb]
      | cons a' as =>
        rw [List.cons_append] at hab
        injection hab with h1 h2
        simp only [existsSuffix, Bool.or_eq_true]
        right
        exact ih.mpr ⟨as, b, h2, hb⟩

theorem isPrefixOf_append_self (l t : Str) : l.isPrefixOf (l ++ t) = true := by
  rw [List.isPrefixOf_iff_prefix]
  exact List.prefix_append l t

theorem strContains_of_split (pat a b : Str) :
    strContains pat (a ++ (pat ++ b)) = true := by
  rw [strContains, existsSuffix_iff]
  exact ⟨a, pat ++ b, rfl, isPrefixOf_append_self pat b⟩

theorem isIdUsedText_of_split (id a b : Str) (hb : boundaryOk b = true) :
    isIdUsedText id (a ++ (idPat id ++ b)) = true := by
  rw [isIdUsedText, existsSuffix_iff]
  refine ⟨a, idPat id ++ b, rfl, ?_⟩
  simp [idPatAt, isPrefixOf_append_self, List.drop_left, hb]

/-! ## Lemmas about the file and identity stages -/

theorem getText_ok (doc : Option Str) (fail : Bool) (t : Str)
    (h : getText doc fail = .ok t) : t = textOf doc := by
  cases doc with
  | none =>
    simp [getText] at h
    simp [textOf, h.symm]
  | some d =>
    cases fail with
    | true => simp [getText] at h
    | false =>
      simp [getText] at h
      simp [textOf, h.symm]

theorem allocFrom_spec (doc : Option Str) (failAt : Nat → Bool) (cands : Nat → Str) :
    ∀ n i c, allocFrom doc failAt cands i n = some c →
      ∃ j, i ≤ j ∧ j < i + n ∧ c = cands j ∧
        isIdUsedM doc (failAt j) (cands j) = false := by
  intro n
  induction n with
  | zero => intro i c h; simp [allocFrom] at h
  | succ n ih =>
    intro i c h
    unfold allocFrom at h
    by_cases hc : isIdUsedM doc (failAt i) (cands i)
    · rw [if_pos hc] at h
      obtain ⟨j, h1, h2, h3, h4⟩ := ih (i + 1) c h
      exact ⟨j, by omega, by omega, h3, h4⟩
    · rw [if_neg hc] at h
      have : cands i = c := by simpa using h
      exact ⟨i, le_refl i, by omega, this.symm, by simpa using hc⟩

theorem allocFrom_none (doc : Option Str) (failAt : Nat → Bool) (cands : Nat → Str) :
    ∀ n i, (∀ j, i ≤ j → j < i + n → isIdUsedM doc (failAt j) (cands j) = true) →
      allocFrom doc failAt cands i n = none := by
  intro n
  induction n with
  | zero => intro i _; rfl
  | succ n ih =>
    intro i h
    unfold allocFrom
    rw [if_pos (h i (le_refl i) (by omega))]
    exact ih (i + 1) (fun j h1 h2 => h j (by omega) (by omega))

theorem pickId_some_inv (fs : FS) (cands : Nat → Str) (idFound : Option Str)
    (tid : Str) (h : pickId fs cands idFound = some tid) :
    idFound = some tid ∨
      (idFound = none ∧ ∃ j, j < 5 ∧ tid = cands j ∧ tid ≠ [] ∧
        isIdUsedM fs.doc (fs.failIdRead j) tid = false) := by
  cases idFound with
  | some i =>
    left
    have : i = tid := by simpa [pickId] using h
    rw [this]
  | none =>
    right
    refine ⟨rfl, ?_⟩
    simp only [pickId] at h
    split at h
    · rename_i c ha
      split at h
      · exact absurd h (by simp)
      · rename_i hc
        have hcid : c = tid := by simpa using h
        rw [← hcid]
        obtain ⟨j, _, h2, h3, h4⟩ := allocFrom_spec _ _ _ 5 0 c ha
        refine ⟨j, by omega, h3, ?_, by rw [h3]; exact h4⟩
        intro hce
        exact hc (by simp [hce])
    · exact absurd h (by simp)

theorem writePhase_ok_inv (fs : FS) (now : Str) (bh mid : Option Str)
    (blks : List Str) (nd : Option Str)
    (h : writePhase fs now bh mid blks = .ok nd) :
    (blks = [] ∧ nd = none) ∨
    (blks ≠ [] ∧ nd = some (appendDoc (textOf fs.doc)
       (mkHeader (countMarkers (textOf fs.doc) + 1) bh mid now ++ joinNl blks))) := by
  by_cases hb : blks.isEmpty
  · left
    refine ⟨List.isEmpty_iff.mp hb, ?_⟩
    unfold writePhase at h
    rw [if_pos hb] at h
    simpa using h.symm
  · right
    refine ⟨fun hh => hb (by simp [hh]), ?_⟩
    unfold writePhase at h
    rw [if_neg hb] at h
    split at h
    · simp at h
    · rename_i pre hp
      split at h
      · simp at h
      · rename_i cur hcur
        split at h
        · simp at h
        · rw [getText_ok _ _ _ hp, getText_ok _ _ _ hcur] at h
          simpa using h.symm

theorem afterId_ok_inv (fs : FS) (now : Str) (req : Request) (id : Str)
    (r : Response) (nd : Option Str)
    (h : afterId fs now req id = .ok (r, nd)) :
    ∃ dom blks,
      r = .ok id dom req.machineId req.arch req.os req.publicIp ∧
      loopGo req.services req.backendHost id (textOf fs.doc)
        (requestedFrom req.services) [] [] = .ok (dom, blks) ∧
      writePhase fs now req.backendHost req.machineId blks = .ok nd := by
  unfold afterId at h
  split at h
  · simp at h
  · rename_i tb ht
    split at h
    · simp at h
    · rename_i dom blks hl
      split at h
      · simp at h
      · rename_i nd' hw
        have h2 : Response.ok id dom req.machineId req.arch req.os req.publicIp = r ∧ nd' = nd := by
          simpa using h
        rw [getText_ok _ _ _ ht] at hl
        exact ⟨dom, blks, h2.1.symm, hl, h2.2 ▸ hw⟩

theorem registerE_ok_inv (fs : FS) (cands : Nat → Str) (now : Str) (req : Request)
    (r : Response) (nd : Option Str)
    (h : registerE fs cands now req = .ok (r, nd)) :
    (r = .idGenerationFailed ∧ nd = none) ∨
    ∃ id idFound,
      resolveId fs.doc fs.failLookupRead req.backendHost = .ok idFound ∧
      pickId fs cands idFound = some id ∧
      afterId fs now req id = .ok (r, nd) := by
  unfold registerE at h
  split at h
  · simp at h
  · rename_i idFound hres
    split at h
    · left
      have h2 : Response.idGenerationFailed = r ∧ (none : Option Str) = nd := by
        simpa using h
      exact ⟨h2.1.symm, h2.2.symm⟩
    · rename_i id hp
      right
      exact ⟨id, idFound, hres, hp, h⟩

/-! ## Lemmas about the line structure of documents -/

theorem linesOf_ne_nil (d : Str) : linesOf d ≠ [] := by
  cases d with
  | nil => simp [linesOf]
  | cons c r =>
    unfold linesOf
    by_cases h : c = '\n'
    · simp [h]
    · rw [if_neg h]
      cases hl : linesOf r with
      | nil => simp
      | cons l ls => simp

theorem linesOf_cons_nl (r : Str) : linesOf ('\n' :: r) = [] :: linesOf r := by
  simp [linesOf]

theorem linesOf_cons_other (c : Char) (r : Str) (h : c ≠ '\n') :
    linesOf (c :: r) = (c :: (linesOf r).headI) :: (linesOf r).tail := by
  cases hl : linesOf r with
  | nil => exact absurd hl (linesOf_ne_nil r)
  | cons l ls =>
    unfold linesOf
    rw [if_neg h, hl]
    rfl

theorem linesOf_append_nl (a rest : Str) :
    linesOf (a ++ '\n' :: rest) = linesOf a ++ linesOf rest := by
  induction a with
  | nil => simp [linesOf_cons_nl, linesOf]
  | cons c as ih =>
    rw [List.cons_append]
    by_cases h : c = '\n'
    · subst h
      rw [linesOf_cons_nl, linesOf_cons_nl, ih, List.cons_append]
    · rw [linesOf_cons_other c _ h, linesOf_cons_other c _ h, ih]
      cases hl : linesOf as with
      | nil => exact absurd hl (linesOf_ne_nil as)
      | cons l ls => simp

theorem linesOf_no_nl (s : Str) (h : '\n' ∉ s) : linesOf s = [s] := by
  induction s with
  | nil => rfl
  | cons c r ih =>
    have hc : c ≠ '\n' := fun hh => h (hh ▸ List.mem_cons_self c r)
    rw [linesOf_cons_other c r hc, ih (fun hm => h (List.mem_cons_of_mem c hm))]
    simp

theorem siteHosts_cons_nl (r : Str) : siteHosts ('\n' :: r) = siteHosts r := by
  simp [siteHosts, linesOf_cons_nl, lineHost?]

theorem siteHosts_append_nl (a rest : Str) :
    siteHosts (a ++ '\n' :: rest) = siteHosts a ++ siteHosts rest := by
  simp [siteHosts, linesOf_append_nl, List.filterMap_append]

theorem linesOf_headI_prefix (d : Str) : ∃ b : Str, d = (linesOf d).headI ++ b := by
  induction d with
  | nil => exact ⟨[], rfl⟩
  | cons c r ih =>
    by_cases hc : c = '\n'
    · subst hc
      exact ⟨'\n' :: r, by rw [linesOf_cons_nl]; rfl⟩
    · obtain ⟨b, hb⟩ := ih
      refine ⟨b, ?_⟩
      rw [linesOf_cons_other c r hc]
      simpa using hb

theorem mem_linesOf_split (l d : Str) (h : l ∈ linesOf d) :
    ∃ a b : Str, d = a ++ l ++ b := by
  induction d generalizing l with
  | nil =>
    simp [linesOf] at h
    exact ⟨[], [], by simp [h]⟩
  | cons c r ih =>
    by_cases hc : c = '\n'
    · subst hc
      rw [linesOf_cons_nl] at h
      rcases List.mem_cons.mp h with h1 | h2
      · exact ⟨[], '\n' :: r, by simp [h1]⟩
      · obtain ⟨a, b, hab⟩ := ih _ h2
        exact ⟨'\n' :: a, b, by simp [hab]⟩
    · rw [linesOf_cons_other c r hc] at h
      rcases List.mem_cons.mp h with h1 | h2
      · obtain ⟨b, hb⟩ := linesOf_headI_prefix r
        refine ⟨[], b, ?_⟩
        rw [h1]
        simpa using hb
      · obtain ⟨a, b, hab⟩ := ih _ (List.mem_of_mem_tail h2)
        exact ⟨c :: a, b, by simp [hab]⟩

theorem isSuffixOf_iff_exists (s l : Str) :
    s.isSuffixOf l = true ↔ ∃ t, l = t ++ s := by
  rw [List.isSuffixOf_iff_suffix]
  constructor
  · rintro ⟨t, ht⟩; exact ⟨t, ht.symm⟩
  · rintro ⟨t, ht⟩; exact ⟨t, ht.symm⟩

theorem lineHost?_eq_some (l h : Str) (hl : lineHost? l = some h) :
    l = h ++ openSuffix := by
  cases l with
  | nil => simp [lineHost?] at hl
  | cons c cs =>
    simp only [lineHost?] at hl
    by_cases h1 : c = ' ' ∨ c = '\t' ∨ c = '#' ∨ c = '@'
    · rw [if_pos h1] at hl; simp at hl
    · rw [if_neg h1] at hl
      by_cases h2 : openSuffix.isSuffixOf (c :: cs) = true
      · rw [if_pos h2] at hl
        have h3 := Option.some.inj hl
        obtain ⟨t, ht⟩ := (isSuffixOf_iff_exists _ _).mp h2
        rw [ht] at h3 ⊢
        have hlen : (t ++ openSuffix).length - 2 = t.length := by
          have hos : openSuffix.length = 2 := rfl
          simp [List.length_append, hos]
        rw [hlen, List.take_left] at h3
        rw [h3]
      · rw [if_neg h2] at hl
        simp at hl

theorem lineHost?_of_suffix_val (host h : Str)
    (hl : lineHost? (host ++ openSuffix) = some h) : h = host := by
  have h2 := lineHost?_eq_some _ _ hl
  exact (List.append_cancel_right h2.symm)

theorem joinNl_cons (b : Str) (r : List Str) (hr : r ≠ []) :
    joinNl (b :: r) = b ++ '\n' :: joinNl r := by
  cases r with
  | nil => exact absurd rfl hr
  | cons x xs => rfl

theorem linesOf_joinNl (ls : List Str) (hne : ls ≠ [])
    (h : ∀ l ∈ ls, '\n' ∉ l) : linesOf (joinNl ls) = ls := by
  induction ls with
  | nil => exact absurd rfl hne
  | cons b r ih =>
    cases r with
    | nil =>
      show linesOf (joinNl [b]) = [b]
      exact linesOf_no_nl b (h b (by simp))
    | cons x xs =>
      rw [joinNl_cons b _ (by simp), linesOf_append_nl,
        linesOf_no_nl b (h b (by simp)),
        ih (by simp) (fun l hl => h l (List.mem_cons_of_mem b hl))]
      rfl

theorem siteHosts_joinNl (ls : List Str) (hne : ls ≠ [])
    (h : ∀ l ∈ ls, '\n' ∉ l) :
    siteHosts (joinNl ls) = ls.filterMap lineHost? := by
  rw [siteHosts, linesOf_joinNl ls hne h]

/-! ## The freshness bridge: an identity that the isIdUsed test reports
unused cannot be the tenant label of any site-block host. -/

theorem isIdUsedText_of_host (id p d : Str)
    (hmem : (p ++ '.' :: (id ++ '.' :: baseDomain)) ∈ siteHosts d) :
    isIdUsedText id d = true := by
  rw [siteHosts] at hmem
  obtain ⟨l, hlmem, hl⟩ := List.mem_filterMap.mp hmem
  have hline := lineHost?_eq_some _ _ hl
  obtain ⟨a, b, hab⟩ := mem_linesOf_split _ _ hlmem
  rw [hline] at hab
  have hd : d = (a ++ p) ++ (idPat id ++ (openSuffix ++ b)) := by
    rw [hab]
    simp [idPat, List.append_assoc]
  rw [hd]
  exact isIdUsedText_of_split id (a ++ p) (openSuffix ++ b) rfl

theorem not_tenantLabel_of_not_isIdUsed (id d : Str)
    (h : isIdUsedText id d = false) : ¬ isTenantLabelIn id d := by
  rintro ⟨hh, hmem, p, _, hp⟩
  rw [hp] at hmem
  rw [isIdUsedText_of_host id p d hmem] at h
  simp at h

/-! ## Character-level facts -/

theorem digitChar_isDigit (n : Nat) (h : n < 10) : (digitChar n).isDigit = true := by
  interval_cases n <;> decide

theorem natDigitsGo_digits (fuel : Nat) :
    ∀ n c, c ∈ natDigitsGo fuel n → c.isDigit = true := by
  induction fuel with
  | zero => intro n c hc; simp [natDigitsGo] at hc
  | succ fuel ih =>
    intro n c hc
    unfold natDigitsGo at hc
    by_cases h : n < 10
    · rw [if_pos h] at hc
      simp at hc
      rw [hc]
      exact digitChar_isDigit n h
    · rw [if_neg h] at hc
      rcases List.mem_append.mp hc with h1 | h2
      · exact ih _ c h1
      · simp at h2
        rw [h2]
        exact digitChar_isDigit (n % 10) (Nat.mod_lt n (by norm_num))

theorem natDigits_no_nl (n : Nat) : '\n' ∉ natDigits n := by
  intro h
  exact absurd (natDigitsGo_digits (n + 1) n '\n' h) (by decide)

theorem defaultsLookup_no_nl (p t : Str) (h : defaultsLookup p = some t) :
    '\n' ∉ t := by
  unfold defaultsLookup at h
  split_ifs at h <;>
    first
      | (rw [← Option.some.inj h]; decide)
      | simp at h

theorem overrideTarget_mem (xs : List SvcEntry) (svc t : Str)
    (h : overrideTarget xs svc = some t) :
    ∃ n, SvcEntry.obj n (some t) ∈ xs := by
  unfold overrideTarget at h
  split at h
  · rename_i n tt hfind
    by_cases he : tt.isEmpty
    · rw [if_pos he] at h; simp at h
    · rw [if_neg he] at h
      have htt := Option.some.inj h
      rw [← htt]
      exact ⟨n, List.mem_of_find?_eq_some hfind⟩
  · simp at h

theorem resolveTargetArr_cases (xs : List SvcEntry) (bh : Option Str)
    (svc pfx t : Str) (h : resolveTargetArr xs bh svc pfx = some t) :
    overrideTarget xs svc = some t ∨
    (∃ b prt, bh = some b ∧ portsLookup pfx = some prt ∧
       t = b ++ ':' :: natDigits prt) ∨
    defaultsLookup pfx = some t := by
  unfold resolveTargetArr at h
  cases ho : overrideTarget xs svc with
  | some t' =>
    simp only [ho] at h
    left
    exact h
  | none =>
    simp only [ho] at h
    cases hb : bh with
    | none => simp only [hb] at h; right; right; exact h
    | some b =>
      simp only [hb] at h
      cases hp : portsLookup pfx with
      | none => simp only [hp] at h; right; right; exact h
      | some prt =>
        simp only [hp] at h
        right; left
        exact ⟨b, prt, rfl, rfl, (Option.some.inj h).symm⟩

theorem resolveTarget_no_nl (services : ServicesField) (bh : Option Str)
    (svc pfx t : Str)
    (harr : ∀ xs, services = .arr xs →
      ∀ e ∈ xs, ∀ n tt, e = SvcEntry.obj n (some tt) → '\n' ∉ tt)
    (hbh : ∀ b, bh = some b → '\n' ∉ b)
    (h : resolveTarget services bh svc pfx = .ok (some t)) : '\n' ∉ t := by
  have harrCase : ∀ xs, resolveTargetArr xs bh svc pfx = some t →
      (∀ e ∈ xs, ∀ n tt, e = SvcEntry.obj n (some tt) → '\n' ∉ tt) → '\n' ∉ t := by
    intro xs hres hx
    rcases resolveTargetArr_cases xs bh svc pfx t hres with h1 | h2 | h3
    · obtain ⟨n, hmem⟩ := overrideTarget_mem xs svc t h1
      exact hx _ hmem n t rfl
    · obtain ⟨b, prt, hb, hp, ht⟩ := h2
      rw [ht]
      intro hc
      rcases List.mem_append.mp hc with hc1 | hc2
      · exact hbh b hb hc1
      · rcases List.mem_cons.mp hc2 with hc3 | hc4
        · exact absurd hc3 (by decide)
        · exact natDigits_no_nl prt hc4
    · exact defaultsLookup_no_nl pfx t h3
  cases services with
  | truthyNonArray => simp [resolveTarget] at h
  | arr xs =>
    have hres : resolveTargetArr xs bh svc pfx = some t := by
      simpa [resolveTarget] using h
    exact harrCase xs hres (harr xs rfl)
  | missing =>
    have hres : resolveTargetArr [] bh svc pfx = some t := by
      simpa [resolveTarget] using h
    exact harrCase [] hres (by intro e he; simp at he)
  | falsy =>
    have hres : resolveTargetArr [] bh svc pfx = some t := by
      simpa [resolveTarget] using h
    exact harrCase [] hres (by intro e he; simp at he)

theorem nanoLower_no_nl (s : Str) (h : ∀ c ∈ s, nanoLowerChar c = true) :
    '\n' ∉ s := by
  intro hc
  exact absurd (h '\n' hc) (by decide)

theorem hostOf_no_nl (pfx id : Str) (h1 : '\n' ∉ pfx) (h2 : '\n' ∉ id) :
    '\n' ∉ hostOf pfx id := by
  intro hc
  unfold hostOf at hc
  rcases List.mem_append.mp hc with hc1 | hc2
  · exact h1 hc1
  · rcases List.mem_cons.mp hc2 with hc3 | hc4
    · exact absurd hc3 (by decide)
    · rcases List.mem_append.mp hc4 with hc5 | hc6
      · exact h2 hc5
      · rcases List.mem_cons.mp hc6 with hc7 | hc8
        · exact absurd hc7 (by decide)
        · exact absurd hc8 (by decide)

/-! ## Lemmas about the per-service loop -/

theorem lookupDom_upsert (dom : List (Str × Str)) (k v p : Str) :
    lookupDom (upsert dom k v) p =
      if k = p then some v else lookupDom dom p := by
  induction dom with
  | nil => simp [upsert, lookupDom]
  | cons kv r ih =>
    obtain ⟨k', v'⟩ := kv
    by_cases h1 : k' = k
    · simp only [upsert, if_pos h1, lookupDom]
      by_cases h2 : k' = p
      · rw [if_pos h2, if_pos (h1 ▸ h2)]
      · rw [if_neg h2, if_neg (fun hk : k = p => h2 (h1.trans hk)), if_neg h2]
    · simp only [upsert, if_neg h1, lookupDom, ih]
      by_cases h2 : k' = p
      · have hk : k ≠ p := fun hk => h1 (hk.trans h2.symm).symm
        rw [if_pos h2, if_neg hk, if_pos h2]
      · by_cases h3 : k = p
        · rw [if_neg h2, if_pos h3, if_pos h3]
        · rw [if_neg h2, if_neg h3, if_neg h3, if_neg h2]

theorem loopGo_ok_shape (services : ServicesField) (bh : Option Str) (id tb : Str) :
    ∀ (names : List Str) (dom : List (Str × Str)) (blks : List Str)
      (dom' : List (Str × Str)) (blks' : List Str),
    loopGo services bh id tb names dom blks = .ok (dom', blks') →
    ∃ kept : List (Str × Str),
      blks' = blks ++ kept.map (fun pt => blockFor pt.1 (hostOf pt.1 id) pt.2) ∧
      (kept.map Prod.fst).Sublist (names.map lowerStr) ∧
      ∀ pt ∈ kept, ∃ svc ∈ names, pt.1 = lowerStr svc ∧
        resolveTarget services bh svc (lowerStr svc) = .ok (some pt.2) := by
  intro names
  induction names with
  | nil =>
    intro dom blks dom' blks' hh
    have h2 : dom = dom' ∧ blks = blks' := by simpa [loopGo] using hh
    exact ⟨[], by simp [h2.2], by simp, by simp⟩
  | cons svc rest ih =>
    intro dom blks dom' blks' hh
    unfold loopGo at hh
    split at hh
    · exact absurd hh (by simp)
    · obtain ⟨kept, h1, h2, h3⟩ := ih _ _ _ _ hh
      refine ⟨kept, h1, h2.trans (by simp), ?_⟩
      intro pt hpt
      obtain ⟨s2, hs2, he⟩ := h3 pt hpt
      exact ⟨s2, List.mem_cons_of_mem svc hs2, he⟩
    · rename_i t hres
      split at hh
      · obtain ⟨kept, h1, h2, h3⟩ := ih _ _ _ _ hh
        refine ⟨kept, h1, h2.trans (by simp), ?_⟩
        intro pt hpt
        obtain ⟨s2, hs2, he⟩ := h3 pt hpt
        exact ⟨s2, List.mem_cons_of_mem svc hs2, he⟩
      · obtain ⟨kept, h1, h2, h3⟩ := ih _ _ _ _ hh
        refine ⟨(lowerStr svc, t) :: kept, ?_, ?_, ?_⟩
        · rw [h1]
          simp [List.append_assoc]
        · simpa using List.Sublist.cons₂ (lowerStr svc) h2
        · intro pt hpt
          rcases List.mem_cons.mp hpt with h4 | h4
          · rw [h4]
            exact ⟨svc, List.mem_cons_self svc rest, rfl, hres⟩
          · obtain ⟨s2, hs2, he⟩ := h3 pt h4
            exact ⟨s2, List.mem_cons_of_mem svc hs2, he⟩

theorem loopGo_dom_none (services : ServicesField) (bh : Option Str) (id tb : Str) :
    ∀ (names : List Str) (dom : List (Str × Str)) (blks : List Str)
      (dom' : List (Str × Str)) (blks' : List Str) (p : Str),
    loopGo services bh id tb names dom blks = .ok (dom', blks') →
    lookupDom dom p = none →
    (∀ svc ∈ names, lowerStr svc = p →
      resolveTarget services bh svc (lowerStr svc) = .ok none) →
    lookupDom dom' p = none := by
  intro names
  induction names with
  | nil =>
    intro dom blks dom' blks' p hh hd _
    have h2 : dom = dom' ∧ blks = blks' := by simpa [loopGo] using hh
    rw [← h2.1]
    exact hd
  | cons svc rest ih =>
    intro dom blks dom' blks' p hh hd hskip
    unfold loopGo at hh
    split at hh
    · exact absurd hh (by simp)
    · exact ih _ _ _ _ p hh hd
        (fun s2 hs2 hp => hskip s2 (List.mem_cons_of_mem svc hs2) hp)
    · rename_i t hres
      have hne : lowerStr svc ≠ p := by
        intro hp
        rw [hskip svc (List.mem_cons_self svc rest) hp] at hres
        simp at hres
      have hd2 : lookupDom (upsert dom (lowerStr svc) (hostOf (lowerStr svc) id)) p = none := by
        rw [lookupDom_upsert, if_neg hne]
        exact hd
      split at hh
      · exact ih _ _ _ _ p hh hd2
          (fun s2 hs2 hp => hskip s2 (List.mem_cons_of_mem svc hs2) hp)
      · exact ih _ _ _ _ p hh hd2
          (fun s2 hs2 hp => hskip s2 (List.mem_cons_of_mem svc hs2) hp)

theorem loopGo_total (services : ServicesField) (hs : services ≠ .truthyNonArray)
    (bh : Option Str) (id tb : Str) :
    ∀ (names : List Str) (dom : List (Str × Str)) (blks : List Str),
    ∃ res, loopGo services bh id tb names dom blks = .ok res := by
  intro names
  induction names with
  | nil => intro dom blks; exact ⟨(dom, blks), rfl⟩
  | cons svc rest ih =>
    intro dom blks
    have hval : ∃ v, resolveTarget services bh svc (lowerStr svc) = .ok v := by
      cases services with
      | truthyNonArray => exact absurd rfl hs
      | arr xs => exact ⟨_, rfl⟩
      | missing => exact ⟨_, rfl⟩
      | falsy => exact ⟨_, rfl⟩
    obtain ⟨v, hv⟩ := hval
    unfold loopGo
    split
    · rename_i e he
      rw [he] at hv
      simp at hv
    · exact ih _ _
    · split
      · exact ih _ _
      · exact ih _ _

/-! ## Template shape lemmas -/

theorem no_nl_append (a b : Str) (ha : '\n' ∉ a) (hb : '\n' ∉ b) :
    '\n' ∉ a ++ b := by
  intro h
  rcases List.mem_append.mp h with h1 | h2
  · exact ha h1
  · exact hb h2

theorem makeSiteBlock_joinNl (host target : Str) :
    makeSiteBlock host target =
      joinNl [[], host ++ openSuffix, ("    reverse_proxy ").data ++ target,
        ("\x7d").data, []] := by
  simp only [makeSiteBlock, joinNl, openSuffix, List.append_assoc,
    List.cons_append, List.nil_append]

theorem pathBlockText_joinNl (host target : Str) :
    pathBlockText host target =
      joinNl [[], host ++ openSuffix, ("    reverse_proxy /* ").data ++ target,
        ("\x7d").data, []] := by
  simp only [pathBlockText, joinNl, openSuffix, List.append_assoc,
    List.cons_append, List.nil_append]

set_option maxRecDepth 8000 in
theorem wsBlockText_joinNl (host target : Str) :
    wsBlockText host target =
      joinNl [[], host ++ openSuffix, ("    reverse_proxy /* ").data ++ target,
        [], ("    # Support des WebSockets").data, ("    @websockets \x7b").data,
        ("        header Connection *Upgrade*").data,
        ("        header Upgrade websocket").data, ("    \x7d").data,
        ("    reverse_proxy @websockets ").data ++ target, ("\x7d").data, []] := by
  simp only [wsBlockText, joinNl, openSuffix, List.append_assoc,
    List.cons_append, List.nil_append]

theorem lineHost?_head_bad (c : Char) (r tail : Str)
    (hc : c = ' ' ∨ c = '\t' ∨ c = '#' ∨ c = '@') :
    lineHost? ((c :: r) ++ tail) = none := by
  rw [List.cons_append]
  simp [lineHost?, hc]

theorem siteHosts_makeSiteBlock (host target : Str)
    (hh : '\n' ∉ host) (ht : '\n' ∉ target) :
    (siteHosts (makeSiteBlock host target)).Sublist [host] := by
  rw [makeSiteBlock_joinNl, siteHosts_joinNl]
  · have h1 : lineHost? ((("    reverse_proxy ").data) ++ target) = none :=
      lineHost?_head_bad ' ' (("   reverse_proxy ").data) target (by left; rfl)
    have h2 : lineHost? (("\x7d").data) = none := by decide
    have h3 : lineHost? ([] : Str) = none := rfl
    simp only [List.filterMap_cons, h1, h2, h3, List.filterMap_nil]
    cases hcase : lineHost? (host ++ openSuffix) with
    | none => simp
    | some b =>
      rw [lineHost?_of_suffix_val host b hcase]
  · simp
  · intro l hl
    fin_cases hl
    · simp
    · exact no_nl_append _ _ hh (by decide)
    · exact no_nl_append _ _ (by decide) ht
    · decide
    · simp

theorem siteHosts_pathBlockText (host target : Str)
    (hh : '\n' ∉ host) (ht : '\n' ∉ target) :
    (siteHosts (pathBlockText host target)).Sublist [host] := by
  rw [pathBlockText_joinNl, siteHosts_joinNl]
  · have h1 : lineHost? ((("    reverse_proxy /* ").data) ++ target) = none :=
      lineHost?_head_bad ' ' (("   reverse_proxy /* ").data) target (by left; rfl)
    have h2 : lineHost? (("\x7d").data) = none := by decide
    have h3 : lineHost? ([] : Str) = none := rfl
    simp only [List.filterMap_cons, h1, h2, h3, List.filterMap_nil]
    cases hcase : lineHost? (host ++ openSuffix) with
    | none => simp
    | some b =>
      rw [lineHost?_of_suffix_val host b hcase]
  · simp
  · intro l hl
    fin_cases hl
    · simp
    · exact no_nl_append _ _ hh (by decide)
    · exact no_nl_append _ _ (by decide) ht
    · decide
    · simp

theorem siteHosts_wsBlockText (host target : Str)
    (hh : '\n' ∉ host) (ht : '\n' ∉ target) :
    (siteHosts (wsBlockText host target)).Sublist [host] := by
  rw [wsBlockText_joinNl, siteHosts_joinNl]
  · have h1 : lineHost? ((("    reverse_proxy /* ").data) ++ target) = none :=
      lineHost?_head_bad ' ' (("   reverse_proxy /* ").data) target (by left; rfl)
    have h1b : lineHost? ((("    reverse_proxy @websockets ").data) ++ target) = none :=
      lineHost?_head_bad ' ' (("   reverse_proxy @websockets ").data) target (by left; rfl)
    have h2 : lineHost? (("\x7d").data) = none := by decide
    have h3 : lineHost? ([] : Str) = none := rfl
    have h4 : lineHost? (("    # Support des WebSockets").data) = none := by decide
    have h5 : lineHost? (("    @websockets \x7b").data) = none := by decide
    have h6 : lineHost? (("        header Connection *Upgrade*").data) = none := by decide
    have h7 : lineHost? (("        header Upgrade websocket").data) = none := by decide
    have h8 : lineHost? (("    \x7d").data) = none := by decide
    simp only [List.filterMap_cons, h1, h1b, h2, h3, h4, h5, h6, h7, h8,
      List.filterMap_nil]
    cases hcase : lineHost? (host ++ openSuffix) with
    | none => simp
    | some b =>
      rw [lineHost?_of_suffix_val host b hcase]
  · simp
  · intro l hl
    fin_cases hl
    · simp
    · exact no_nl_append _ _ hh (by decide)
    · exact no_nl_append _ _ (by decide) ht
    · simp
    · decide
    · decide
    · decide
    · decide
    · decide
    · exact no_nl_append _ _ (by decide) ht
    · decide
    · simp

theorem siteHosts_blockFor (pfx host target : Str)
    (hh : '\n' ∉ host) (ht : '\n' ∉ target) :
    (siteHosts (blockFor pfx host target)).Sublist [host] := by
  unfold blockFor makeSpecialBlock
  by_cases h1 : pfx = ("backend.rdrive").data
  · rw [if_pos h1]
    exact siteHosts_wsBlockText host target hh ht
  · rw [if_neg h1]
    by_cases h2 : pfx = ("connector.rdrive").data ∨ pfx = ("document.rdrive").data
    · rw [if_pos h2]
      exact siteHosts_pathBlockText host target hh ht
    · rw [if_neg h2]
      exact siteHosts_makeSiteBlock host target hh ht

theorem siteHosts_nil : siteHosts [] = [] := rfl

theorem siteHosts_blocks (id : Str) (hid : '\n' ∉ id) :
    ∀ kept : List (Str × Str),
    (∀ pt ∈ kept, '\n' ∉ pt.1 ∧ '\n' ∉ pt.2) →
    (siteHosts (joinNl (kept.map (fun pt => blockFor pt.1 (hostOf pt.1 id) pt.2)))).Sublist
      (kept.map (fun pt => hostOf pt.1 id)) := by
  intro kept
  induction kept with
  | nil => intro _; simp [joinNl, siteHosts_nil]
  | cons pt rest ih =>
    intro hcl
    have hpt := hcl pt (List.mem_cons_self pt rest)
    have hblk := siteHosts_blockFor pt.1 (hostOf pt.1 id) pt.2
      (hostOf_no_nl pt.1 id hpt.1 hid) hpt.2
    have hih := ih (fun pt2 hpt2 => hcl pt2 (List.mem_cons_of_mem pt hpt2))
    cases rest with
    | nil => simpa [joinNl] using hblk
    | cons q qs =>
      rw [List.map_cons, joinNl_cons _ _ (by simp), List.map_cons,
        siteHosts_append_nl]
      rw [List.map_cons] at hih
      exact List.Sublist.append hblk hih

theorem mkHeader_split (n : Nat) (bh mid : Option Str) (now : Str) (rest : Str) :
    mkHeader n bh mid now ++ rest =
      '\n' :: (headerLineOf n bh mid now ++ '\n' :: rest) := by
  simp only [mkHeader, headerLineOf, List.append_assoc, List.cons_append,
    List.nil_append]

theorem lineHost?_headerLineOf (n : Nat) (bh mid : Option Str) (now : Str) :
    lineHost? (headerLineOf n bh mid now) = none :=
  lineHost?_head_bad '#' ((" BLOCK ").data) _
    (Or.inr (Or.inr (Or.inl rfl)))

theorem headerLineOf_no_nl (n : Nat) (bh mid : Option Str) (now : Str)
    (hbh : ∀ b, bh = some b → '\n' ∉ b)
    (hmid : ∀ m, mid = some m → '\n' ∉ m)
    (hnow : '\n' ∉ now) :
    '\n' ∉ headerLineOf n bh mid now := by
  unfold headerLineOf
  refine no_nl_append _ _ (by decide) ?_
  refine no_nl_append _ _ (natDigits_no_nl n) ?_
  refine no_nl_append _ _ (by decide) ?_
  refine no_nl_append _ _ ?_ ?_
  · cases hb : bh with
    | some b => exact hbh b hb
    | none => decide
  · refine no_nl_append _ _ (by decide) ?_
    refine no_nl_append _ _ ?_ ?_
    · cases hm : mid with
      | some m => exact hmid m hm
      | none => simp
    · exact no_nl_append _ _ (by decide) hnow

theorem siteHosts_single_line (l : Str) (h : '\n' ∉ l) :
    siteHosts l = (lineHost? l).toList := by
  rw [siteHosts, linesOf_no_nl l h]
  cases hc : lineHost? l <;> simp [List.filterMap_cons, hc]

theorem hostOf_inj (p1 p2 id : Str) (h : hostOf p1 id = hostOf p2 id) :
    p1 = p2 :=
  List.append_cancel_right h

theorem nodup_hostOf_map (id : Str) (kept : List (Str × Str))
    (h : (kept.map Prod.fst).Nodup) :
    (kept.map (fun pt => hostOf pt.1 id)).Nodup := by
  have he : kept.map (fun pt => hostOf pt.1 id) =
      (kept.map Prod.fst).map (fun p => hostOf p id) := by
    rw [List.map_map]
    rfl
  rw [he]
  exact h.map (fun a b hab => hostOf_inj a b id hab)

theorem siteHosts_appendDoc_cons_nl (cur rest : Str) :
    siteHosts (appendDoc cur ('\n' :: rest)) = siteHosts cur ++ siteHosts rest := by
  unfold appendDoc
  split
  · exact siteHosts_append_nl cur rest
  · rw [siteHosts_append_nl, siteHosts_cons_nl]

theorem textOf_some (s : Str) : textOf (some s) = s := rfl

/-! ## Claim C3 -/

def c3req : Request :=
  ⟨none, none, none, none, none,
    .arr [.str (("rdrive").data), .str (("rdrive").data)]⟩

/-- C3, counterexample: starting from the empty document (whose site-block
hosts are trivially pairwise distinct), one register request whose
services list repeats the name rdrive produces a document with two
site blocks bound to the same host - the duplicate check consults only
the snapshot taken before the loop, so the second occurrence is not
deduplicated against the first. -/
theorem c3_counterexample :
    (siteHosts (textOf (none : Option Str))).Nodup ∧
    ¬ (siteHosts (textOf ((register (cleanFS none)
        (candsConst (("aaaaaaaa").data)) (("t").data) c3req).2.doc))).Nodup := by
  constructor
  · decide
  · decide

/-- C3 (amended): host uniqueness is preserved by registration provided
the requested service names are pairwise distinct after lower-casing,
the names, override targets, backend host, machine id, timestamp and
candidate identifiers are newline-free, and the identity is freshly
allocated (the existing-identity lookup found nothing). -/
theorem c3_host_uniqueness_preserved
    (d : Option Str) (cands : Nat → Str) (now : Str) (req : Request)
    (xs : List SvcEntry) (resp : Response) (fs' : FS)
    (hsv : req.services = .arr xs)
    (hnodup : ((requestedOf xs).map lowerStr).Nodup)
    (hnames : ∀ svc ∈ requestedOf xs, '\n' ∉ lowerStr svc)
    (htargs : ∀ e ∈ xs, ∀ n t, e = SvcEntry.obj n (some t) → '\n' ∉ t)
    (hbh : ∀ b, req.backendHost = some b → '\n' ∉ b)
    (hmid : ∀ m, req.machineId = some m → '\n' ∉ m)
    (hnow : '\n' ∉ now)
    (hcand : ∀ i, '\n' ∉ cands i)
    (hres : resolveId d false req.backendHost = .ok none)
    (hrun : register (cleanFS d) cands now req = (resp, fs'))
    (hstart : (siteHosts (textOf d)).Nodup) :
    (siteHosts (textOf fs'.doc)).Nodup := by
  unfold register at hrun
  split at hrun
  · rename_i r hreg
    have hfs : fs' = cleanFS d := (Prod.mk.inj hrun).2.symm
    rw [hfs]
    exact hstart
  case h_3 =>
    have hfs : fs' = cleanFS d := (Prod.mk.inj hrun).2.symm
    rw [hfs]
    exact hstart
  case h_2 r dnew hreg =>
    have hfs : fs'.doc = some dnew := by
      rw [← (Prod.mk.inj hrun).2]
    rw [hfs]
    obtain h1 | ⟨id, idFound, hres', hpick, hafter⟩ :=
      registerE_ok_inv _ _ _ _ _ _ hreg
    · exact absurd h1.2 (by simp)
    · have h2 : resolveId d false req.backendHost = .ok idFound := hres'
      have hif : idFound = none := (Except.ok.inj (hres.symm.trans h2)).symm
      obtain hl | ⟨_, j, hj, hidc, hidne, hunused⟩ :=
        pickId_some_inv _ _ _ _ hpick
      · rw [hif] at hl
        exact absurd hl (by simp)
      · have hfree : isIdUsedM d false id = false := hunused
        obtain ⟨dom, blks, hr, hloop, hwrite⟩ := afterId_ok_inv _ _ _ _ _ _ hafter
        obtain ⟨hbe, hnd⟩ | ⟨hbne, hnd⟩ := writePhase_ok_inv _ _ _ _ _ _ hwrite
        · exact absurd hnd (by simp)
        · have hdnew : dnew = appendDoc (textOf d)
              (mkHeader (countMarkers (textOf d) + 1) req.backendHost
                req.machineId now ++ joinNl blks) := Option.some.inj hnd
          obtain ⟨kept, hkb, hksub, hkmem⟩ := loopGo_ok_shape _ _ _ _ _ _ _ _ _ hloop
          rw [List.nil_append] at hkb
          rw [hsv] at hksub hkmem
          simp only [requestedFrom] at hksub hkmem
          have hid_nl : '\n' ∉ id := by rw [hidc]; exact hcand j
          have hkcl : ∀ pt ∈ kept, '\n' ∉ pt.1 ∧ '\n' ∉ pt.2 := by
            intro pt hpt
            obtain ⟨svc, hsvcmem, hp1, hptar⟩ := hkmem pt hpt
            constructor
            · rw [hp1]
              exact hnames svc hsvcmem
            · refine resolveTarget_no_nl (ServicesField.arr xs) req.backendHost
                svc (lowerStr svc) pt.2 ?_ hbh hptar
              intro xs' hxs' e he n t het
              injection hxs' with hxx2
              rw [← hxx2] at he
              exact htargs e he n t het
          rw [textOf_some, hdnew, mkHeader_split, siteHosts_appendDoc_cons_nl,
            siteHosts_append_nl,
            siteHosts_single_line _
              (headerLineOf_no_nl _ _ _ _ hbh hmid hnow),
            lineHost?_headerLineOf]
          simp only [Option.toList, List.nil_append]
          have hsub := siteHosts_blocks id hid_nl kept hkcl
          rw [← hkb] at hsub
          have hknodup : (kept.map Prod.fst).Nodup :=
            List.Nodup.sublist hksub hnodup
          have hhtnodup := nodup_hostOf_map id kept hknodup
          rw [List.nodup_append]
          refine ⟨hstart, List.Nodup.sublist hsub hhtnodup, ?_⟩
          intro a ha hain
          have hamem : a ∈ kept.map (fun pt => hostOf pt.1 id) :=
            hsub.subset hain
          obtain ⟨pt, hptk, hpa⟩ := List.mem_map.mp hamem
          cases d with
          | none => simp [textOf, siteHosts_nil] at ha
          | some dd =>
            have hused : isIdUsedText id dd = true := by
              apply isIdUsedText_of_host id pt.1 dd
              rw [show pt.1 ++ '.' :: (id ++ '.' :: baseDomain) =
                hostOf pt.1 id from rfl, hpa]
              exact ha
            have hfree2 : isIdUsedText id dd = false := by
              simpa [isIdUsedM] using hfree
            rw [hused] at hfree2
            exact absurd hfree2 (by simp)

/-! ## Claim C2 -/

/-- C2, counterexample: the candidate stream abc-defg is a legitimate
lower-cased nanoid output (8 characters over the nanoid alphabet, which
contains the hyphen); the handler accepts it unfiltered, so the freshly
allocated identity is not composed only of lowercase letters and
digits. -/
theorem c2_counterexample :
    (register (cleanFS none) (candsConst (("abc-defg").data)) (("t").data)
      bareReq).1 =
      .ok (("abc-defg").data)
        [((("rdrive").data), (("rdrive.abc-defg.ryvie.fr").data))]
        none none none none ∧
    (("abc-defg").data).length = 8 ∧
    (∀ c ∈ (("abc-defg").data), nanoLowerChar c = true) ∧
    ¬ (∀ c ∈ (("abc-defg").data), lowerAlnum c = true) := by
  refine ⟨by decide, by decide, by decide, by decide⟩

/-- A successful registration on a clean file system whose identity
lookup found nothing allocated its identity from the candidate stream:
the identity is one of the first five candidates, nonempty, and the
isIdUsed check reported it unused against the current document. -/
theorem register_ok_fresh_id
    (d : Option Str) (cands : Nat → Str) (now : Str) (req : Request)
    (id : Str) (dom : List (Str × Str)) (m a o p : Option Str) (fs' : FS)
    (hres : resolveId d false req.backendHost = .ok none)
    (hrun : register (cleanFS d) cands now req = (.ok id dom m a o p, fs')) :
    ∃ j, j < 5 ∧ id = cands j ∧ id ≠ [] ∧ isIdUsedM d false id = false := by
  have key : ∀ (nd : Option Str),
      registerE (cleanFS d) cands now req = .ok (.ok id dom m a o p, nd) →
      ∃ j, j < 5 ∧ id = cands j ∧ id ≠ [] ∧ isIdUsedM d false id = false := by
    intro nd hreg
    obtain h1 | ⟨id', idFound, hres', hpick, hafter⟩ :=
      registerE_ok_inv _ _ _ _ _ _ hreg
    · exact absurd h1.1 (by simp)
    · obtain ⟨dom2, blks, hr2, _, _⟩ := afterId_ok_inv _ _ _ _ _ _ hafter
      injection hr2 with e1 e2 e3 e4 e5 e6
      have h2 : resolveId d false req.backendHost = .ok idFound := hres'
      have hif : idFound = none := (Except.ok.inj (hres.symm.trans h2)).symm
      obtain hl | ⟨_, j, hj, hidc, hidne, hunused⟩ :=
        pickId_some_inv _ _ _ _ hpick
      · rw [hif] at hl
        exact absurd hl (by simp)
      · refine ⟨j, hj, ?_, ?_, ?_⟩
        · rw [e1]; exact hidc
        · rw [e1]; exact hidne
        · rw [e1]; exact hunused
  unfold register at hrun
  split at hrun
  · rename_i r hreg
    have hr : r = .ok id dom m a o p := (Prod.mk.inj hrun).1
    exact key none (hr ▸ hreg)
  case h_2 r dnew hreg =>
    have hr : r = .ok id dom m a o p := (Prod.mk.inj hrun).1
    exact key (some dnew) (hr ▸ hreg)
  case h_3 =>
    exact absurd (Prod.mk.inj hrun).1 (by simp)

theorem not_tenantLabel_textOf (id : Str) (d : Option Str)
    (h : isIdUsedM d false id = false) : ¬ isTenantLabelIn id (textOf d) := by
  cases d with
  | none =>
    rintro ⟨hh, hmem, _⟩
    rw [show textOf none = ([] : Str) from rfl, siteHosts_nil] at hmem
    exact absurd hmem (List.not_mem_nil hh)
  | some dd =>
    have h2 : isIdUsedText id dd = false := by simpa [isIdUsedM] using h
    exact not_tenantLabel_of_not_isIdUsed id dd h2

/-- C2 (amended): every freshly allocated identity is an 8-character token
over the lower-cased nanoid alphabet (lowercase letters, digits, hyphen
and underscore), and at allocation time it does not occur as the tenant
label of any site-block host of the current document. -/
theorem c2_fresh_identity_charset_and_unused
    (d : Option Str) (cands : Nat → Str) (now : Str) (req : Request)
    (id : Str) (dom : List (Str × Str)) (m a o p : Option Str) (fs' : FS)
    (hcands : ∀ i, (cands i).length = 8 ∧ ∀ c ∈ cands i, nanoLowerChar c = true)
    (hres : resolveId d false req.backendHost = .ok none)
    (hrun : register (cleanFS d) cands now req = (.ok id dom m a o p, fs')) :
    id.length = 8 ∧ (∀ c ∈ id, nanoLowerChar c = true) ∧
    ¬ isTenantLabelIn id (textOf d) := by
  obtain ⟨j, hj, hidc, hidne, hunused⟩ :=
    register_ok_fresh_id d cands now req id dom m a o p fs' hres hrun
  refine ⟨?_, ?_, not_tenantLabel_textOf id d hunused⟩
  · rw [hidc]
    exact (hcands j).1
  · rw [hidc]
    exact (hcands j).2

/-- C2 witness. -/
theorem c2_witness :
    (("aaaaaaaa").data).length = 8 ∧
    (∀ c ∈ (("aaaaaaaa").data), nanoLowerChar c = true) ∧
    ¬ isTenantLabelIn (("aaaaaaaa").data) (textOf (none : Option Str)) :=
  c2_fresh_identity_charset_and_unused none
    (candsConst (("aaaaaaaa").data)) (("t").data) bareReq
    (("aaaaaaaa").data)
    [((("rdrive").data), (("rdrive.aaaaaaaa.ryvie.fr").data))]
    none none none none
    (register (cleanFS none) (candsConst (("aaaaaaaa").data)) (("t").data)
      bareReq).2
    (fun _ => ⟨rfl, show ∀ c ∈ (("aaaaaaaa").data), nanoLowerChar c = true
      from by decide⟩) rfl rfl

/-! ## Claim C1 -/

def c1req : Request :=
  ⟨none, none, none, none, some (("10.0.0.7").data), .missing⟩

def c1fs1 : FS :=
  (register (cleanFS none) (candsConst (("aaaaaaaa").data)) (("t").data) c1req).2

/-- C1: re-registering the same backend host does not return the same
identity.  The first registration of backend 10.0.0.7 allocates the
identity aaaaaaaa and writes a block whose directive targets
10.0.0.7:3010; yet the existing-identity lookup matches nothing in the
resulting document (its pattern, built in a template literal, lost its
regex escapes), so the second registration of the very same backend host
allocates the fresh identity bbbbbbbb instead of returning aaaaaaaa. -/
theorem c1_lookup_never_refinds :
    (register (cleanFS none) (candsConst (("aaaaaaaa").data)) (("t").data)
      c1req).1 =
      .ok (("aaaaaaaa").data)
        [((("rdrive").data), (("rdrive.aaaaaaaa.ryvie.fr").data))]
        none none none none ∧
    strContains (("reverse_proxy 10.0.0.7:3010").data) (textOf c1fs1.doc) = true ∧
    findExistingId (("10.0.0.7").data) (textOf c1fs1.doc) = none ∧
    (register c1fs1 (candsConst (("bbbbbbbb").data)) (("t").data) c1req).1 =
      .ok (("bbbbbbbb").data)
        [((("rdrive").data), (("rdrive.bbbbbbbb.ryvie.fr").data))]
        none none none none ∧
    (("aaaaaaaa").data : Str) ≠ (("bbbbbbbb").data) := by
  refine ⟨by decide, by decide, by decide, by decide, by decide⟩

/-! ## Claim C4 -/

/-- C4, counterexample: a successful registration answers with HTTP
status 200, yet its JSON body carries no status field. -/
theorem c4_counterexample :
    statusCode (register (cleanFS none) (candsConst (("aaaaaaaa").data))
      (("t").data) bareReq).1 = 200 ∧
    jsonField (("status").data)
      (responseJson (register (cleanFS none) (candsConst (("aaaaaaaa").data))
        (("t").data) bareReq).1) = none := by
  exact ⟨rfl, rfl⟩

/-- C4 (amended): no register response carries a status field; a 200
response's body has exactly the fields id, domains and received. -/
theorem c4_no_status_field (fs : FS) (cands : Nat → Str) (now : Str)
    (req : Request) (resp : Response) (fs' : FS)
    (hrun : register fs cands now req = (resp, fs')) :
    jsonField (("status").data) (responseJson resp) = none ∧
    (statusCode resp = 200 →
      topKeys (responseJson resp) =
        [("id").data, ("domains").data, ("received").data]) := by
  cases resp with
  | ok id dom m a o p => exact ⟨rfl, fun _ => rfl⟩
  | idGenerationFailed =>
    refine ⟨rfl, fun h => ?_⟩
    simp [statusCode] at h
  | registrationFailed =>
    refine ⟨rfl, fun h => ?_⟩
    simp [statusCode] at h

/-- C4 witness. -/
theorem c4_witness :
    jsonField (("status").data)
      (responseJson (register (cleanFS none) (candsConst (("aaaaaaaa").data))
        (("t").data) bareReq).1) = none ∧
    (statusCode (register (cleanFS none) (candsConst (("aaaaaaaa").data))
        (("t").data) bareReq).1 = 200 →
      topKeys (responseJson (register (cleanFS none)
        (candsConst (("aaaaaaaa").data)) (("t").data) bareReq).1) =
        [("id").data, ("domains").data, ("received").data]) :=
  c4_no_status_field (cleanFS none) (candsConst (("aaaaaaaa").data))
    (("t").data) bareReq _ _ rfl

/-! ## Claim C6 -/

/-- C6: allocator exhaustion is fatal and atomic.  When the identity
lookup found nothing and all five candidate draws collide with the
current document, the handler answers with the id-generation error and
the file system - in particular the configuration document - is left
exactly as it was: no block and no header is written. -/
theorem c6_exhaustion_atomic (fs : FS) (cands : Nat → Str) (now : Str)
    (req : Request)
    (hres : resolveId fs.doc fs.failLookupRead req.backendHost = .ok none)
    (hcoll : ∀ i, i < 5 → isIdUsedM fs.doc (fs.failIdRead i) (cands i) = true) :
    register fs cands now req = (.idGenerationFailed, fs) := by
  have halloc : allocFrom fs.doc fs.failIdRead cands 0 5 = none :=
    allocFrom_none _ _ _ 5 0 (fun j h1 h2 => hcoll j (by omega))
  have hpick : pickId fs cands none = none := by
    simp [pickId, halloc]
  have hreg : registerE fs cands now req = .ok (.idGenerationFailed, none) := by
    unfold registerE
    rw [hres]
    simp only [hpick]
  unfold register
  rw [hreg]

def c6fs : FS := cleanFS (some (("x.aaaaaaaa.ryvie.fr \x7b\n\x7d\n").data))

/-- C6 witness. -/
theorem c6_witness :
    register c6fs (candsConst (("aaaaaaaa").data)) (("t").data) bareReq =
      (.idGenerationFailed, c6fs) :=
  c6_exhaustion_atomic c6fs (candsConst (("aaaaaaaa").data)) (("t").data)
    bareReq rfl (fun i _ =>
      show isIdUsedM c6fs.doc false (("aaaaaaaa").data) = true from by decide)

/-! ## Claim C5 -/

theorem strContains_appendDoc_right (pat cur content : Str)
    (h : strContains pat content = true) :
    strContains pat (appendDoc cur content) = true := by
  rw [strContains, existsSuffix_iff] at h
  obtain ⟨a, b, hab, hb⟩ := h
  unfold appendDoc
  split
  · rw [strContains, existsSuffix_iff, hab]
    exact ⟨cur ++ a, b, by rw [List.append_assoc], hb⟩
  · rw [strContains, existsSuffix_iff, hab]
    exact ⟨cur ++ '\n' :: a, b, by simp [List.append_assoc], hb⟩

theorem mkHeader_pref (n : Nat) (bh mid : Option Str) (now rest : Str) :
    ∃ tail, mkHeader n bh mid now ++ rest =
      (("\n# BLOCK ").data ++ (natDigits n ++ (" - ").data)) ++ tail := by
  refine ⟨("backendHost=").data ++
    ((match bh with | some b => b | none => ("custom targets").data) ++
      ((" machineId=").data ++
        (mid.getD [] ++ ((" time=").data ++ (now ++ '\n' :: rest))))), ?_⟩
  simp only [mkHeader, List.append_assoc, List.cons_append, List.nil_append]

def c5doc : Str := ("# BLOCK 5 - backendHost=x machineId= time=t\n").data

/-- C5, counterexample: on a document holding the single header comment
numbered 5, the next registration writes a header numbered 2 (one more
than the count of header comments), not 6 (one more than the maximum
found sequence number, which is what the specification prescribes). -/
theorem c5_counterexample :
    specNextHeaderSequence c5doc = 6 ∧
    countMarkers c5doc = 1 ∧
    strContains (("\n# BLOCK 2 - ").data)
      (textOf ((register (cleanFS (some c5doc))
        (candsConst (("aaaaaaaa").data)) (("t").data) bareReq).2.doc)) = true ∧
    strContains (("\n# BLOCK 6").data)
      (textOf ((register (cleanFS (some c5doc))
        (candsConst (("aaaaaaaa").data)) (("t").data) bareReq).2.doc)) = false := by
  refine ⟨by decide, by decide, by decide, by decide⟩

/-- C5 (amended): whenever a registration writes to the document, the
traceability header it writes is numbered with one plus the COUNT of
header comments already present (not one plus their maximum): the new
document contains the marker text with that number. -/
theorem c5_header_number_is_count_plus_one
    (fs : FS) (cands : Nat → Str) (now : Str) (req : Request)
    (r : Response) (dnew : Str)
    (h : registerE fs cands now req = .ok (r, some dnew)) :
    strContains (("\n# BLOCK ").data ++
      (natDigits (countMarkers (textOf fs.doc) + 1) ++ (" - ").data))
      dnew = true := by
  obtain h1 | ⟨id, idFound, hres', hpick, hafter⟩ :=
    registerE_ok_inv _ _ _ _ _ _ h
  · exact absurd h1.2 (by simp)
  · obtain ⟨dom, blks, hr, hloop, hwrite⟩ := afterId_ok_inv _ _ _ _ _ _ hafter
    obtain ⟨_, hnd⟩ | ⟨_, hnd⟩ := writePhase_ok_inv _ _ _ _ _ _ hwrite
    · exact absurd hnd (by simp)
    · have hdnew := Option.some.inj hnd
      rw [hdnew]
      obtain ⟨tail, htail⟩ := mkHeader_pref (countMarkers (textOf fs.doc) + 1)
        req.backendHost req.machineId now (joinNl blks)
      rw [htail]
      apply strContains_appendDoc_right
      rw [strContains, existsSuffix_iff]
      exact ⟨[], _, rfl, isPrefixOf_append_self _ _⟩

/-- C5 witness. -/
theorem c5_witness :
    strContains (("\n# BLOCK ").data ++
      (natDigits (countMarkers (textOf (cleanFS (some c5doc)).doc) + 1) ++
        (" - ").data))
      (textOf ((register (cleanFS (some c5doc))
        (candsConst (("aaaaaaaa").data)) (("t").data) bareReq).2.doc)) = true :=
  c5_header_number_is_count_plus_one (cleanFS (some c5doc))
    (candsConst (("aaaaaaaa").data)) (("t").data) bareReq
    ((register (cleanFS (some c5doc)) (candsConst (("aaaaaaaa").data))
      (("t").data) bareReq).1)
    (textOf ((register (cleanFS (some c5doc)) (candsConst (("aaaaaaaa").data))
      (("t").data) bareReq).2.doc))
    rfl

/-! ## Claim C7 -/

set_option maxRecDepth 16000 in
/-- C7: template correctness.  The plain template contains exactly one
reverse-proxy directive line; the template selected for the
WebSocket-upgrading service contains the path-scoped directive to the
target, the named connection-upgrade matcher on the Connection and
Upgrade headers, and a second directive scoped to that matcher routing
to the same target (two directive lines in total); and any prefix for
which no special template exists synthesizes the plain shape. -/
theorem c7_templates (host target : Str)
    (hh : '\n' ∉ host) (ht : '\n' ∉ target)
    (hhost : (("reverse_proxy ").data).isPrefixOf
      ((host ++ openSuffix).dropWhile (fun c => c == ' ')) = false) :
    dirLines (makeSiteBlock host target) = 1 ∧
    makeSpecialBlock (("backend.rdrive").data) host target =
      some (wsBlockText host target) ∧
    dirLines (wsBlockText host target) = 2 ∧
    strContains (("    reverse_proxy /* ").data ++ (target ++ ['\n']))
      (wsBlockText host target) = true ∧
    strContains (("@websockets \x7b\n        header Connection *Upgrade*\n        header Upgrade websocket\n    \x7d").data)
      (wsBlockText host target) = true ∧
    strContains (("    reverse_proxy @websockets ").data ++ (target ++ ['\n']))
      (wsBlockText host target) = true ∧
    (∀ pfx, makeSpecialBlock pfx host target = none →
      blockFor pfx host target = makeSiteBlock host target) ∧
    (∀ pfx, pfx ≠ ("backend.rdrive").data → pfx ≠ ("connector.rdrive").data →
      pfx ≠ ("document.rdrive").data → makeSpecialBlock pfx host target = none) := by
  have hpredEmpty : (("reverse_proxy ").data).isPrefixOf
      (([] : Str).dropWhile (fun c => c == ' ')) = false := rfl
  have hpredClose : (("reverse_proxy ").data).isPrefixOf
      ((("\x7d").data).dropWhile (fun c => c == ' ')) = false := rfl
  have hdir1 : (("reverse_proxy ").data).isPrefixOf
      (((("    reverse_proxy ").data ++ target)).dropWhile (fun c => c == ' ')) = true := by
    have he : ((("    reverse_proxy ").data ++ target)).dropWhile
        (fun c => c == ' ') = ("reverse_proxy ").data ++ target := rfl
    rw [he]
    exact isPrefixOf_append_self _ _
  have hdir2 : (("reverse_proxy ").data).isPrefixOf
      (((("    reverse_proxy /* ").data ++ target)).dropWhile (fun c => c == ' ')) = true := by
    have he : ((("    reverse_proxy /* ").data ++ target)).dropWhile
        (fun c => c == ' ') = ("reverse_proxy ").data ++ (("/* ").data ++ target) := rfl
    rw [he]
    exact isPrefixOf_append_self _ _
  have hdir3 : (("reverse_proxy ").data).isPrefixOf
      (((("    reverse_proxy @websockets ").data ++ target)).dropWhile
        (fun c => c == ' ')) = true := by
    have he : ((("    reverse_proxy @websockets ").data ++ target)).dropWhile
        (fun c => c == ' ') = ("reverse_proxy ").data ++ (("@websockets ").data ++ target) := rfl
    rw [he]
    exact isPrefixOf_append_self _ _
  have hl1 : linesOf (makeSiteBlock host target) =
      [[], host ++ openSuffix, ("    reverse_proxy ").data ++ target,
        ("\x7d").data, []] := by
    rw [makeSiteBlock_joinNl]
    apply linesOf_joinNl _ (by simp)
    intro l hl
    fin_cases hl
    · simp
    · exact no_nl_append _ _ hh (by decide)
    · exact no_nl_append _ _ (by decide) ht
    · decide
    · simp
  have hl2 : linesOf (wsBlockText host target) =
      [[], host ++ openSuffix, ("    reverse_proxy /* ").data ++ target,
        [], ("    # Support des WebSockets").data, ("    @websockets \x7b").data,
        ("        header Connection *Upgrade*").data,
        ("        header Upgrade websocket").data, ("    \x7d").data,
        ("    reverse_proxy @websockets ").data ++ target, ("\x7d").data, []] := by
    rw [wsBlockText_joinNl]
    apply linesOf_joinNl _ (by simp)
    intro l hl
    fin_cases hl
    · simp
    · exact no_nl_append _ _ hh (by decide)
    · exact no_nl_append _ _ (by decide) ht
    · simp
    · decide
    · decide
    · decide
    · decide
    · decide
    · exact no_nl_append _ _ (by decide) ht
    · decide
    · simp
  refine ⟨?_, rfl, ?_, ?_, ?_, ?_, ?_, ?_⟩
  · unfold dirLines
    rw [hl1]
    simp [List.filter_cons, hpredEmpty, hpredClose, hhost, hdir1]
  · unfold dirLines
    rw [hl2]
    simp [List.filter_cons, hpredEmpty, hpredClose, hhost, hdir2, hdir3]
  · have hw1 : wsBlockText host target =
        ('\n' :: (host ++ (" \x7b\n").data)) ++
          (((("    reverse_proxy /* ").data ++ (target ++ ['\n']))) ++
            (("\n    # Support des WebSockets\n    @websockets \x7b\n        header Connection *Upgrade*\n        header Upgrade websocket\n    \x7d\n    reverse_proxy @websockets ").data ++
              (target ++ ("\n\x7d\n").data))) := by
      simp only [wsBlockText, List.append_assoc, List.cons_append,
        List.nil_append]
    rw [hw1]
    exact strContains_of_split _ _ _
  · have hw2 : wsBlockText host target =
        ('\n' :: (host ++ ((" \x7b\n    reverse_proxy /* ").data ++
            (target ++ ("\n\n    # Support des WebSockets\n    ").data)))) ++
          ((("@websockets \x7b\n        header Connection *Upgrade*\n        header Upgrade websocket\n    \x7d").data) ++
            (("\n    reverse_proxy @websockets ").data ++
              (target ++ ("\n\x7d\n").data))) := by
      simp only [wsBlockText, List.append_assoc, List.cons_append,
        List.nil_append]
    rw [hw2]
    exact strContains_of_split _ _ _
  · have hw3 : wsBlockText host target =
        ('\n' :: (host ++ ((" \x7b\n    reverse_proxy /* ").data ++
            (target ++ ("\n\n    # Support des WebSockets\n    @websockets \x7b\n        header Connection *Upgrade*\n        header Upgrade websocket\n    \x7d\n").data)))) ++
          (((("    reverse_proxy @websockets ").data ++ (target ++ ['\n']))) ++
            ("\x7d\n").data) := by
      simp only [wsBlockText, List.append_assoc, List.cons_append,
        List.nil_append]
    rw [hw3]
    exact strContains_of_split _ _ _
  · intro pfx hnone
    unfold blockFor
    rw [hnone]
    rfl
  · intro pfx h1 h2 h3
    unfold makeSpecialBlock
    rw [if_neg h1, if_neg (by rintro (h | h) <;> [exact h2 h; exact h3 h])]

/-- C7 witness. -/
theorem c7_witness :
    dirLines (makeSiteBlock (("rdrive.aaaaaaaa.ryvie.fr").data)
      (("10.0.0.7:3010").data)) = 1 ∧
    dirLines (wsBlockText (("backend.rdrive.aaaaaaaa.ryvie.fr").data)
      (("10.0.0.7:4000").data)) = 2 ∧
    strContains (("    reverse_proxy @websockets ").data ++
        ((("10.0.0.7:4000").data) ++ ['\n']))
      (wsBlockText (("backend.rdrive.aaaaaaaa.ryvie.fr").data)
        (("10.0.0.7:4000").data)) = true :=
  ⟨(c7_templates (("rdrive.aaaaaaaa.ryvie.fr").data) (("10.0.0.7:3010").data)
      (by decide) (by decide) (by decide)).1,
   (c7_templates (("backend.rdrive.aaaaaaaa.ryvie.fr").data)
      (("10.0.0.7:4000").data) (by decide) (by decide) (by decide)).2.2.1,
   (c7_templates (("backend.rdrive.aaaaaaaa.ryvie.fr").data)
      (("10.0.0.7:4000").data) (by decide) (by decide) (by decide)).2.2.2.2.2.1⟩

/-! ## Claim C8 -/

theorem getText_clean (d : Option Str) : getText d false = .ok (textOf d) := by
  cases d <;> rfl

theorem writePhase_clean (d : Option Str) (now : Str) (bh mid : Option Str)
    (blks : List Str) :
    writePhase (cleanFS d) now bh mid blks =
      .ok (if blks.isEmpty then none
        else some (appendDoc (textOf d)
          (mkHeader (countMarkers (textOf d) + 1) bh mid now ++ joinNl blks))) := by
  unfold writePhase
  simp only [cleanFS]
  by_cases hb : blks.isEmpty
  · rw [if_pos hb, if_pos hb]
  · rw [if_neg hb, getText_clean]
    simp
    exact fun h => hb (by simp [h])

theorem allocFrom_first (doc : Option Str) (f : Nat → Bool) (cands : Nat → Str)
    (i n : Nat) (h : isIdUsedM doc (f i) (cands i) = false) :
    allocFrom doc f cands i (n + 1) = some (cands i) := by
  unfold allocFrom
  rw [if_neg (by simp [h])]

/-- A registration on a clean file system whose lookup finds nothing and
whose first candidate is nonempty and unused succeeds with that
candidate as identity, and the file gains exactly the write-phase
content of the loop's blocks (nothing when the loop kept none). -/
theorem register_clean_success (d : Option Str) (cands : Nat → Str) (now : Str)
    (req : Request)
    (hnt : req.services ≠ .truthyNonArray)
    (hres : resolveId d false req.backendHost = .ok none)
    (hfree : isIdUsedM d false (cands 0) = false)
    (hne : cands 0 ≠ []) :
    ∃ dom blks,
      loopGo req.services req.backendHost (cands 0) (textOf d)
        (requestedFrom req.services) [] [] = .ok (dom, blks) ∧
      register (cleanFS d) cands now req =
        (.ok (cands 0) dom req.machineId req.arch req.os req.publicIp,
          { cleanFS d with doc := if blks.isEmpty then d
                                  else some (appendDoc (textOf d)
                                    (mkHeader (countMarkers (textOf d) + 1)
                                      req.backendHost req.machineId now ++
                                      joinNl blks)) }) := by
  have hie : (cands 0).isEmpty = false := by
    cases hc0 : cands 0 with
    | nil => exact absurd hc0 hne
    | cons a l => rfl
  have halloc : allocFrom (cleanFS d).doc (cleanFS d).failIdRead cands 0 5 =
      some (cands 0) :=
    allocFrom_first d (fun _ => false) cands 0 4 hfree
  have hpick : pickId (cleanFS d) cands none = some (cands 0) := by
    unfold pickId
    rw [halloc]
    simp [hie]
  obtain ⟨⟨dom, blks⟩, hloop⟩ := loopGo_total req.services hnt req.backendHost
    (cands 0) (textOf d) (requestedFrom req.services) [] []
  have hafter : afterId (cleanFS d) now req (cands 0) =
      .ok (.ok (cands 0) dom req.machineId req.arch req.os req.publicIp,
        if blks.isEmpty then none else some (appendDoc (textOf d)
          (mkHeader (countMarkers (textOf d) + 1) req.backendHost
            req.machineId now ++ joinNl blks))) := by
    unfold afterId
    split
    · rename_i e he
      have he2 : getText d false = Except.error e := he
      rw [getText_clean d] at he2
      exact absurd he2 (by simp)
    · rename_i tb htb
      have htb2 : getText d false = Except.ok tb := htb
      rw [getText_clean d] at htb2
      obtain rfl : textOf d = tb := Except.ok.inj htb2
      split
      · rename_i e2 hl2
        rw [hloop] at hl2
        exact absurd hl2 (by simp)
      · rename_i dom2 blks2 hl2
        rw [hloop] at hl2
        have h3 := Prod.mk.inj (Except.ok.inj hl2)
        split
        · rename_i e3 hw
          rw [writePhase_clean] at hw
          exact absurd hw (by simp)
        · rename_i nd hw
          rw [writePhase_clean] at hw
          have hnd := Except.ok.inj hw
          rw [← h3.2] at hnd
          rw [← h3.1, hnd]
  have hreg : registerE (cleanFS d) cands now req =
      .ok (.ok (cands 0) dom req.machineId req.arch req.os req.publicIp,
        if blks.isEmpty then none else some (appendDoc (textOf d)
          (mkHeader (countMarkers (textOf d) + 1) req.backendHost
            req.machineId now ++ joinNl blks))) := by
    unfold registerE
    split
    · rename_i e he
      have he2 : resolveId d false req.backendHost = Except.error e := he
      rw [hres] at he2
      exact absurd he2 (by simp)
    · rename_i idF hid
      have hid2 : resolveId d false req.backendHost = Except.ok idF := hid
      rw [hres] at hid2
      obtain rfl : (none : Option Str) = idF := Except.ok.inj hid2
      rw [hpick]
      exact hafter
  refine ⟨dom, blks, hloop, ?_⟩
  by_cases hb : blks.isEmpty
  · rw [if_pos hb] at hreg
    unfold register
    rw [hreg, if_pos hb]
    rfl
  · rw [if_neg hb] at hreg
    unfold register
    rw [hreg, if_neg hb]

/-- C8: graceful omission. For every requested service name s whose
target is unresolvable - no explicit override among the request's
service entries matching its lowered name, no catalogue port when a
backend host is supplied, and no static default - a registration that
otherwise succeeds (lookup finds nothing, the first nonempty candidate
is unused) returns the 200 success response with the fresh identity,
the lowered name of s is absent from the returned domains mapping, and
the site-block hosts of the resulting document are those of the prior
document plus some freshly written hosts among which the host of s
never appears: the unresolvable service contributes no domain entry and
no block, and does not fail the request. -/
theorem c8_graceful_omission (d : Option Str) (cands : Nat → Str) (now : Str)
    (req : Request) (xs : List SvcEntry) (s : Str)
    (hsv : req.services = .arr xs)
    (hmem : s ∈ requestedOf xs)
    (hnone : ∀ svc ∈ requestedOf xs, lowerStr svc = lowerStr s →
      overrideTarget xs svc = none)
    (hport : ∀ b, req.backendHost = some b → portsLookup (lowerStr s) = none)
    (hdef : defaultsLookup (lowerStr s) = none)
    (hres : resolveId d false req.backendHost = .ok none)
    (hfree : isIdUsedM d false (cands 0) = false)
    (hne : cands 0 ≠ [])
    (hnames : ∀ svc ∈ requestedOf xs, '\n' ∉ lowerStr svc)
    (htargs : ∀ e ∈ xs, ∀ n tt, e = SvcEntry.obj n (some tt) → '\n' ∉ tt)
    (hbh : ∀ b, req.backendHost = some b → '\n' ∉ b)
    (hmid : ∀ m, req.machineId = some m → '\n' ∉ m)
    (hnow : '\n' ∉ now)
    (hid : '\n' ∉ cands 0) :
    ∃ dom rest fs',
      register (cleanFS d) cands now req =
        (.ok (cands 0) dom req.machineId req.arch req.os req.publicIp, fs') ∧
      lookupDom dom (lowerStr s) = none ∧
      siteHosts (textOf fs'.doc) = siteHosts (textOf d) ++ rest ∧
      hostOf (lowerStr s) (cands 0) ∉ rest := by
  have hnt : req.services ≠ .truthyNonArray := by
    rw [hsv]
    exact fun h => ServicesField.noConfusion h
  obtain ⟨dom, blks, hloop, hrun⟩ :=
    register_clean_success d cands now req hnt hres hfree hne
  rw [hsv] at hloop
  have hloop2 : loopGo (ServicesField.arr xs) req.backendHost (cands 0)
      (textOf d) (requestedOf xs) [] [] = .ok (dom, blks) := hloop
  have hrtnone : ∀ svc ∈ requestedOf xs, lowerStr svc = lowerStr s →
      resolveTarget (.arr xs) req.backendHost svc (lowerStr svc) = .ok none := by
    intro svc hsvc hp
    have hrta : resolveTargetArr xs req.backendHost svc (lowerStr svc) = none := by
      unfold resolveTargetArr
      rw [hp]
      simp only [hnone svc hsvc hp]
      cases hbc : req.backendHost with
      | none => simp [hdef]
      | some b => simp [hport b hbc, hdef]
    simp [resolveTarget, hrta]
  have hdomnone : lookupDom dom (lowerStr s) = none :=
    loopGo_dom_none (.arr xs) req.backendHost (cands 0) (textOf d)
      (requestedOf xs) [] [] dom blks (lowerStr s) hloop2 rfl hrtnone
  obtain ⟨kept, hblks, hsub, hkm⟩ :=
    loopGo_ok_shape (.arr xs) req.backendHost (cands 0) (textOf d)
      (requestedOf xs) [] [] dom blks hloop2
  simp only [List.nil_append] at hblks
  have hnotin : hostOf (lowerStr s) (cands 0) ∉
      kept.map (fun pt => hostOf pt.1 (cands 0)) := by
    intro hin
    obtain ⟨pt, hpt, hpe⟩ := List.mem_map.mp hin
    have hp1 : pt.1 = lowerStr s := hostOf_inj _ _ _ hpe
    obtain ⟨svc, hsvc, hpl, hrt⟩ := hkm pt hpt
    have hcontra := hrtnone svc hsvc (by rw [← hpl, hp1])
    rw [hcontra] at hrt
    simp at hrt
  have hkcl : ∀ pt ∈ kept, '\n' ∉ pt.1 ∧ '\n' ∉ pt.2 := by
    intro pt hpt
    obtain ⟨svc, hsvc, hpl, hrt⟩ := hkm pt hpt
    constructor
    · rw [hpl]
      exact hnames svc hsvc
    · exact resolveTarget_no_nl (.arr xs) req.backendHost svc (lowerStr svc) pt.2
        (fun xs2 hxs2 => by
          injection hxs2 with h2
          rw [← h2]
          exact htargs) hbh hrt
  have hsh := siteHosts_blocks (cands 0) hid kept hkcl
  by_cases hb : blks.isEmpty
  · rw [if_pos hb] at hrun
    refine ⟨dom, [], cleanFS d, hrun, hdomnone, by simp [cleanFS, textOf], by simp⟩
  · rw [if_neg hb] at hrun
    refine ⟨dom, siteHosts (joinNl blks), _, hrun, hdomnone, ?_, ?_⟩
    · show siteHosts (textOf (some (appendDoc (textOf d)
        (mkHeader (countMarkers (textOf d) + 1) req.backendHost
          req.machineId now ++ joinNl blks)))) = _
      rw [textOf_some, mkHeader_split, siteHosts_appendDoc_cons_nl,
        siteHosts_append_nl,
        siteHosts_single_line _ (headerLineOf_no_nl _ _ _ _ hbh hmid hnow),
        lineHost?_headerLineOf]
      simp
    · intro hin
      rw [hblks] at hin
      exact hnotin (hsh.subset hin)

/-- Witness for C8: a concrete registration requesting only the unknown
service unknownsvc, with no backend host, succeeds while omitting it. -/
theorem c8_witness :
    (("unknownsvc").data ∈ requestedOf [SvcEntry.str (("unknownsvc").data)]) ∧
    ∃ dom rest fs',
      register (cleanFS none) (fun _ => ("aaaaaaaa").data) []
          ⟨none, none, none, none, none,
            .arr [SvcEntry.str (("unknownsvc").data)]⟩ =
        (.ok (("aaaaaaaa").data) dom none none none none, fs') ∧
      lookupDom dom (lowerStr (("unknownsvc").data)) = none ∧
      siteHosts (textOf fs'.doc) = siteHosts (textOf none) ++ rest ∧
      hostOf (lowerStr (("unknownsvc").data)) (("aaaaaaaa").data) ∉ rest :=
  ⟨by decide,
    c8_graceful_omission none (fun _ => ("aaaaaaaa").data) []
      ⟨none, none, none, none, none, .arr [SvcEntry.str (("unknownsvc").data)]⟩
      [SvcEntry.str (("unknownsvc").data)] (("unknownsvc").data)
      rfl (by decide) (by decide)
      (fun b hb => nomatch hb) (by decide) rfl (by decide) (by decide)
      (by decide)
      (by
        intro e he n tt hett
        rw [List.mem_singleton.mp he] at hett
        exact SvcEntry.noConfusion hett)
      (fun b hb => nomatch hb) (fun m hm => nomatch hm)
      (by decide) (by decide)⟩

/-- Witness for C3: a concrete non-repeating registration from the empty
document keeps the site-block hosts pairwise distinct. -/
theorem c3_witness :
    resolveId none false none = .ok none ∧
    (siteHosts (textOf ((register (cleanFS none) (fun _ => ("aaaaaaaa").data) []
      ⟨none, none, none, none, none,
        .arr [SvcEntry.str (("rdrive").data)]⟩).2).doc)).Nodup :=
  ⟨rfl,
    c3_host_uniqueness_preserved none (fun _ => ("aaaaaaaa").data) []
      ⟨none, none, none, none, none, .arr [SvcEntry.str (("rdrive").data)]⟩
      [SvcEntry.str (("rdrive").data)]
      ((register (cleanFS none) (fun _ => ("aaaaaaaa").data) []
        ⟨none, none, none, none, none,
          .arr [SvcEntry.str (("rdrive").data)]⟩).1)
      ((register (cleanFS none) (fun _ => ("aaaaaaaa").data) []
        ⟨none, none, none, none, none,
          .arr [SvcEntry.str (("rdrive").data)]⟩).2)
      rfl (by decide) (by decide)
      (by
        intro e he n t hett
        rw [List.mem_singleton.mp he] at hett
        exact SvcEntry.noConfusion hett)
      (fun b hb => nomatch hb) (fun m hm => nomatch hm)
      (by decide) (fun i => show '\n' ∉ ("aaaaaaaa").data from by decide)
      rfl rfl (by decide)⟩

/-! ## Claim C9 -/

theorem resolveId_false_ok (doc : Option Str) (bh : Option Str) :
    ∃ v, resolveId doc false bh = .ok v := by
  cases bh with
  | none => exact ⟨none, rfl⟩
  | some b =>
    refine ⟨findExistingId b (textOf doc), ?_⟩
    unfold resolveId
    rw [getText_clean]

theorem writePhase_false_ok (fs : FS) (now : Str) (bh mid : Option Str)
    (blks : List Str) (hh : fs.failHeaderRead = false)
    (ha : fs.failAppendRead = false) (hw : fs.failWrite = false) :
    ∃ nd, writePhase fs now bh mid blks = .ok nd := by
  unfold writePhase
  by_cases hb : blks.isEmpty
  · rw [if_pos hb]
    exact ⟨none, rfl⟩
  · rw [if_neg hb, hh, ha, getText_clean, hw]
    exact ⟨_, rfl⟩

theorem afterId_false_ok (fs : FS) (now : Str) (req : Request) (id : Str)
    (hnt : req.services ≠ .truthyNonArray)
    (hd : fs.failDedupRead = false) (hh : fs.failHeaderRead = false)
    (ha : fs.failAppendRead = false) (hw : fs.failWrite = false) :
    ∃ dom nd, afterId fs now req id =
      .ok (.ok id dom req.machineId req.arch req.os req.publicIp, nd) := by
  obtain ⟨⟨dom, blks⟩, hloop⟩ := loopGo_total req.services hnt req.backendHost
    id (textOf fs.doc) (requestedFrom req.services) [] []
  obtain ⟨nd, hwp⟩ := writePhase_false_ok fs now req.backendHost req.machineId
    blks hh ha hw
  refine ⟨dom, nd, ?_⟩
  unfold afterId
  rw [hd, getText_clean]
  simp only [hloop, hwp]

def c9fs : FS :=
  ⟨some (("x.aaaaaaaa.ryvie.fr \x7b\n\x7d\n").data), false, fun _ => true,
    false, false, false, false⟩

/-- C9, counterexample: a read failure on the configuration file during
the candidate-uniqueness check is not fatal.  The injected read failure
fires on the very first candidate draw, the document demonstrably
contains that candidate as a used label (a clean read would reject it),
and yet the registration answers 200 - the catch inside isIdUsed
swallows the failure and reports the identifier unused. -/
theorem c9_counterexample :
    c9fs.failIdRead 0 = true ∧
    isIdUsedText (("aaaaaaaa").data) (textOf c9fs.doc) = true ∧
    statusCode (register c9fs (candsConst (("aaaaaaaa").data)) (("t").data)
      bareReq).1 = 200 := by
  decide

/-- C9, amended: (1) a storage failure that does surface out of the
handler body is fatal - the catch-all answers registration_failed with
HTTP 500 - and when the failure was not the write call itself (read
failures throw before any write is attempted), the file system is left
untouched; for a failed write only the response is asserted, since the
naive whole-file overwrite carries no all-or-nothing guarantee about
what it leaves behind; (2) the read failure of the per-candidate
uniqueness check never surfaces: with every other failure flag clear
and an array (or absent, or falsy) services value, the registration
completes with a response other than registration_failed whatever the
id-read flags are; and (3) the non-2xx registration_failed response is
not reserved to allocator and storage failures: a truthy non-array
services value produces it on a perfectly clean file system, the throw
occurring in the per-service loop before any write. -/
theorem c9_error_policy_amended (fs : FS) (cands : Nat → Str) (now : Str)
    (req : Request)
    (hl : fs.failLookupRead = false) (hd : fs.failDedupRead = false)
    (hh : fs.failHeaderRead = false) (ha : fs.failAppendRead = false)
    (hw : fs.failWrite = false)
    (hnt : req.services ≠ .truthyNonArray) :
    (∀ (e : Unit) fs2 (cands2 : Nat → Str) now2 req2,
      registerE fs2 cands2 now2 req2 = .error e →
      (register fs2 cands2 now2 req2).1 = .registrationFailed ∧
      statusCode .registrationFailed = 500 ∧
      (fs2.failWrite = false →
        register fs2 cands2 now2 req2 = (.registrationFailed, fs2))) ∧
    (∃ r fs', register fs cands now req = (r, fs') ∧
      r ≠ .registrationFailed) ∧
    (∀ d req2, req2.services = .truthyNonArray → req2.backendHost = none →
      isIdUsedM d false (cands 0) = false → cands 0 ≠ [] →
      register (cleanFS d) cands now req2 = (.registrationFailed, cleanFS d)) := by
  refine ⟨?_, ?_, ?_⟩
  · intro e fs2 cands2 now2 req2 he
    have hfull : register fs2 cands2 now2 req2 = (.registrationFailed, fs2) := by
      unfold register
      rw [he]
    exact ⟨by rw [hfull], rfl, fun _ => hfull⟩
  · obtain ⟨v, hres⟩ := resolveId_false_ok fs.doc req.backendHost
    cases hpick : pickId fs cands v with
    | none =>
      refine ⟨.idGenerationFailed, fs, ?_, by simp⟩
      unfold register registerE
      rw [hl]
      simp only [hres, hpick]
    | some tid =>
      obtain ⟨dom, nd, hafter⟩ := afterId_false_ok fs now req tid hnt hd hh ha hw
      cases nd with
      | none =>
        refine ⟨.ok tid dom req.machineId req.arch req.os req.publicIp, fs,
          ?_, by simp⟩
        unfold register registerE
        rw [hl]
        simp only [hres, hpick, hafter]
      | some dn =>
        refine ⟨.ok tid dom req.machineId req.arch req.os req.publicIp,
          { fs with doc := some dn }, ?_, by simp⟩
        unfold register registerE
        rw [hl]
        simp only [hres, hpick, hafter]
  · intro d req2 h2 hb2 hfree hne
    have hie : (cands 0).isEmpty = false := by
      cases hc0 : cands 0 with
      | nil => exact absurd hc0 hne
      | cons a l => rfl
    have halloc : allocFrom (cleanFS d).doc (cleanFS d).failIdRead cands 0 5 =
        some (cands 0) :=
      allocFrom_first d (fun _ => false) cands 0 4 hfree
    have hpick : pickId (cleanFS d) cands none = some (cands 0) := by
      unfold pickId
      rw [halloc]
      simp [hie]
    have hres2 : resolveId (cleanFS d).doc (cleanFS d).failLookupRead
        req2.backendHost = .ok none := by
      rw [hb2]
      rfl
    have hafter : afterId (cleanFS d) now req2 (cands 0) = .error () := by
      have hg : getText (cleanFS d).doc (cleanFS d).failDedupRead =
          .ok (textOf d) := getText_clean d
      unfold afterId
      rw [hg, h2]
      rfl
    have hreg : registerE (cleanFS d) cands now req2 = .error () := by
      unfold registerE
      rw [hres2]
      simp only [hpick]
      exact hafter
    unfold register
    rw [hreg]

/-- Witness for C9 at the concrete file system whose only set failure
flag is the id-read one: surfaced errors are fatal (and leave the file
untouched when the write itself did not fail), this run does not end in
registration_failed, and a truthy non-array services value alone
produces registration_failed. -/
theorem c9_witness :
    (∀ (e : Unit) fs2 (cands2 : Nat → Str) now2 req2,
      registerE fs2 cands2 now2 req2 = .error e →
      (register fs2 cands2 now2 req2).1 = .registrationFailed ∧
      statusCode .registrationFailed = 500 ∧
      (fs2.failWrite = false →
        register fs2 cands2 now2 req2 = (.registrationFailed, fs2))) ∧
    (∃ r fs', register c9fs (candsConst (("aaaaaaaa").data)) (("t").data)
        bareReq = (r, fs') ∧ r ≠ .registrationFailed) ∧
    (∀ d req2, req2.services = .truthyNonArray → req2.backendHost = none →
      isIdUsedM d false (candsConst (("aaaaaaaa").data) 0) = false →
      candsConst (("aaaaaaaa").data) 0 ≠ [] →
      register (cleanFS d) (candsConst (("aaaaaaaa").data)) (("t").data) req2 =
        (.registrationFailed, cleanFS d)) :=
  c9_error_policy_amended c9fs (candsConst (("aaaaaaaa").data)) (("t").data)
    bareReq rfl rfl rfl rfl rfl (by decide)

/-! ## Claim C10 -/

theorem overrideTarget_str (r svc : Str) :
    overrideTarget [SvcEntry.str r] svc = none := by
  unfold overrideTarget
  cases h : [SvcEntry.str r].find? (effMatches svc) with
  | none => rfl
  | some e =>
    have hm := List.mem_of_find?_eq_some h
    rw [List.mem_singleton] at hm
    rw [hm]

theorem resolveTargetArr_str (r : Str) (bh : Option Str) (svc pfx : Str) :
    resolveTargetArr [SvcEntry.str r] bh svc pfx =
      resolveTargetArr [] bh svc pfx := by
  unfold resolveTargetArr
  rw [overrideTarget_str]
  rfl

theorem loopGo_services_congr (s1 s2 : ServicesField) (bh : Option Str)
    (id tb : Str)
    (hrt : ∀ svc, resolveTarget s1 bh svc (lowerStr svc) =
      resolveTarget s2 bh svc (lowerStr svc)) :
    ∀ names dom blks, loopGo s1 bh id tb names dom blks =
      loopGo s2 bh id tb names dom blks := by
  intro names
  induction names with
  | nil => intro dom blks; rfl
  | cons svc rest ih =>
    intro dom blks
    unfold loopGo
    rw [← hrt svc]
    cases hv : resolveTarget s1 bh svc (lowerStr svc) with
    | error e => rfl
    | ok v =>
      cases v with
      | none => exact ih _ _
      | some t =>
        dsimp only
        by_cases hb : hasServiceBlockB (hostOf (lowerStr svc) id)
            (expectedOf bh (lowerStr svc)) tb = true
        · rw [if_pos hb, if_pos hb]
          exact ih _ _
        · rw [if_neg hb, if_neg hb]
          exact ih _ _

theorem afterId_services_congr (fs : FS) (now : Str)
    (m a o p bh : Option Str) (s1 s2 : ServicesField) (id : Str)
    (hrt : ∀ svc, resolveTarget s1 bh svc (lowerStr svc) =
      resolveTarget s2 bh svc (lowerStr svc))
    (hreq : requestedFrom s1 = requestedFrom s2) :
    afterId fs now ⟨m, a, o, p, bh, s1⟩ id =
      afterId fs now ⟨m, a, o, p, bh, s2⟩ id := by
  unfold afterId
  cases hg : getText fs.doc fs.failDedupRead with
  | error e => rfl
  | ok tb =>
    dsimp only
    rw [hreq, loopGo_services_congr s1 s2 bh id tb hrt]

theorem registerE_services_congr (fs : FS) (cands : Nat → Str) (now : Str)
    (m a o p bh : Option Str) (s1 s2 : ServicesField)
    (hrt : ∀ svc, resolveTarget s1 bh svc (lowerStr svc) =
      resolveTarget s2 bh svc (lowerStr svc))
    (hreq : requestedFrom s1 = requestedFrom s2) :
    registerE fs cands now ⟨m, a, o, p, bh, s1⟩ =
      registerE fs cands now ⟨m, a, o, p, bh, s2⟩ := by
  unfold registerE
  dsimp only
  cases hr : resolveId fs.doc fs.failLookupRead bh with
  | error e => rfl
  | ok idF =>
    dsimp only
    cases hp : pickId fs cands idF with
    | none => rfl
    | some tid => exact afterId_services_congr fs now m a o p bh s1 s2 tid hrt hreq

theorem register_services_congr (fs : FS) (cands : Nat → Str) (now : Str)
    (m a o p bh : Option Str) (s1 s2 : ServicesField)
    (hrt : ∀ svc, resolveTarget s1 bh svc (lowerStr svc) =
      resolveTarget s2 bh svc (lowerStr svc))
    (hreq : requestedFrom s1 = requestedFrom s2) :
    register fs cands now ⟨m, a, o, p, bh, s1⟩ =
      register fs cands now ⟨m, a, o, p, bh, s2⟩ := by
  unfold register
  rw [registerE_services_congr fs cands now m a o p bh s1 s2 hrt hreq]

/-- A truthy non-array services value makes the per-service find throw,
and the catch-all answers registration_failed, provided the handler
reaches the loop (no backend host, fresh first candidate). -/
theorem register_truthy_fails (d : Option Str) (cands : Nat → Str) (now : Str)
    (req : Request) (h2 : req.services = .truthyNonArray)
    (hb2 : req.backendHost = none)
    (hfree : isIdUsedM d false (cands 0) = false) (hne : cands 0 ≠ []) :
    register (cleanFS d) cands now req = (.registrationFailed, cleanFS d) := by
  have hie : (cands 0).isEmpty = false := by
    cases hc0 : cands 0 with
    | nil => exact absurd hc0 hne
    | cons a l => rfl
  have halloc : allocFrom (cleanFS d).doc (cleanFS d).failIdRead cands 0 5 =
      some (cands 0) :=
    allocFrom_first d (fun _ => false) cands 0 4 hfree
  have hpick : pickId (cleanFS d) cands none = some (cands 0) := by
    unfold pickId
    rw [halloc]
    simp [hie]
  have hres2 : resolveId (cleanFS d).doc (cleanFS d).failLookupRead
      req.backendHost = .ok none := by
    rw [hb2]
    rfl
  have hafter : afterId (cleanFS d) now req (cands 0) = .error () := by
    have hg : getText (cleanFS d).doc (cleanFS d).failDedupRead =
        .ok (textOf d) := getText_clean d
    unfold afterId
    rw [hg, h2]
    rfl
  have hreg : registerE (cleanFS d) cands now req = .error () := by
    unfold registerE
    rw [hres2]
    simp only [hpick]
    exact hafter
  unfold register
  rw [hreg]

/-- C10, counterexample: a truthy non-array services value does not
behave as a request for the single service rdrive.  On the empty
document with no backend host, the explicit request for rdrive succeeds
while the truthy non-array one answers registration_failed with
HTTP 500 - the per-service find throws a TypeError that the catch-all
turns into the error response. -/
theorem c10_counterexample :
    (register (cleanFS none) (candsConst (("aaaaaaaa").data)) (("t").data)
      ⟨none, none, none, none, none, .truthyNonArray⟩).1 =
        .registrationFailed ∧
    statusCode (register (cleanFS none) (candsConst (("aaaaaaaa").data))
      (("t").data) ⟨none, none, none, none, none, .truthyNonArray⟩).1 = 500 ∧
    (register (cleanFS none) (candsConst (("aaaaaaaa").data)) (("t").data)
      ⟨none, none, none, none, none,
        .arr [SvcEntry.str (("rdrive").data)]⟩).1 ≠ .registrationFailed := by
  decide

/-- C10, amended: a missing services field and a falsy non-array value
(null, 0, the empty string or false) are each handled exactly as the
explicit request for the single service rdrive - the whole register
outcome, response and file system alike, coincides for every file
system, candidate stream, time string and request fields; a truthy
non-array value instead crashes the per-service find, and the
registration answers registration_failed (here on a clean file system
whose lookup is skipped and whose first candidate is fresh). -/
theorem c10_default_coercion_amended (fs : FS) (cands : Nat → Str) (now : Str)
    (m a o p bh : Option Str) (d : Option Str) (req : Request)
    (h2 : req.services = .truthyNonArray) (hb2 : req.backendHost = none)
    (hfree : isIdUsedM d false (cands 0) = false) (hne : cands 0 ≠ []) :
    register fs cands now ⟨m, a, o, p, bh, .missing⟩ =
      register fs cands now
        ⟨m, a, o, p, bh, .arr [SvcEntry.str (("rdrive").data)]⟩ ∧
    register fs cands now ⟨m, a, o, p, bh, .falsy⟩ =
      register fs cands now
        ⟨m, a, o, p, bh, .arr [SvcEntry.str (("rdrive").data)]⟩ ∧
    register (cleanFS d) cands now req = (.registrationFailed, cleanFS d) := by
  refine ⟨?_, ?_, register_truthy_fails d cands now req h2 hb2 hfree hne⟩
  · exact register_services_congr fs cands now m a o p bh .missing
      (.arr [SvcEntry.str (("rdrive").data)])
      (fun svc => by simp only [resolveTarget, resolveTargetArr_str])
      (by decide)
  · exact register_services_congr fs cands now m a o p bh .falsy
      (.arr [SvcEntry.str (("rdrive").data)])
      (fun svc => by simp only [resolveTarget, resolveTargetArr_str])
      (by decide)

/-- Witness for C10 at concrete inputs: the empty document, the constant
candidate stream and a truthy non-array request. -/
theorem c10_witness :
    register (cleanFS none) (candsConst (("aaaaaaaa").data)) (("t").data)
      ⟨none, none, none, none, none, .missing⟩ =
      register (cleanFS none) (candsConst (("aaaaaaaa").data)) (("t").data)
        ⟨none, none, none, none, none,
          .arr [SvcEntry.str (("rdrive").data)]⟩ ∧
    register (cleanFS none) (candsConst (("aaaaaaaa").data)) (("t").data)
      ⟨none, none, none, none, none, .falsy⟩ =
      register (cleanFS none) (candsConst (("aaaaaaaa").data)) (("t").data)
        ⟨none, none, none, none, none,
          .arr [SvcEntry.str (("rdrive").data)]⟩ ∧
    register (cleanFS none) (candsConst (("aaaaaaaa").data)) (("t").data)
      ⟨none, none, none, none, none, .truthyNonArray⟩ =
      (.registrationFailed, cleanFS none) :=
  c10_default_coercion_amended (cleanFS none) (candsConst (("aaaaaaaa").data))
    (("t").data) none none none none none none
    ⟨none, none, none, none, none, .truthyNonArray⟩ rfl rfl rfl (by decide)
